import Mathlib

/-!
Verification development for the minivdom reactive renderer
(src/minivdom.js).  The JavaScript program is shallowly embedded:

* `Val` models the JavaScript values that flow through `RenderDOM` and
  `state` — primitives, arrays (element descriptions), plain objects
  (attribute maps), and functions (component references).  A JavaScript
  component closure is modelled as a component identifier together with
  its bound arguments; a global environment `Prog` maps the identifier
  and the arguments to the component body.
* Component bodies are read-only programs over the reactive cells,
  modelled by the free monad `ReadM` (a body may read cells and finally
  return a `Val`; the components in the source only read state while
  rendering, writes happen in event handlers).
* `DNode` models DOM nodes; `St` models the global mutable state of the
  program: the uid counter `_id`, the context stack `_id_stack`, the
  reactive cells created by `state`, and the mounted document.
* `render` models `RenderDOM`, `readCell` models the `value` getter of
  `state`, `setCell` models `set`.  `render` takes a fuel argument so
  that the (possibly divergent) recursion through component invocations
  becomes total; every other aspect follows the source line by line.
* Exceptions (`TypeError` from `dom.setAttribute` on a non-element,
  `null[0]` on a failed tag-name match, …) are modelled by `Except`;
  crucially, the global state at the moment an exception escapes is
  returned alongside the error, because the JavaScript globals survive
  the exception.
-/

namespace MiniVdom

/-- JavaScript values reaching `RenderDOM` and stored in cells. -/
inductive Val where
  | vnull
  | vnum (n : Int)
  | vbool (b : Bool)
  | vstr (s : String)
  | vcomp (cid : Nat) (args : List Val)
  | varr (items : List Val)
  | vobj (kvs : List (String × Val))

/-- Component bodies: read-only programs over the reactive cells. -/
inductive ReadM where
  | pure (v : Val)
  | read (c : Nat) (k : Val → ReadM)

/-- Environment resolving a component closure (identifier plus bound
arguments) to its body.  Invoking the closure, as `node()` does in the
source, means running `prog cid args`. -/
def Prog : Type := Nat → List Val → ReadM

/-- DOM nodes.  The `data-uid` attribute written by `setAttribute` in the
source is modelled by the dedicated `uid` field; the `id` attribute by
`idAttr`; `classList` by `classes`; plain attributes by `attrs` (values
stringified, as `setAttribute` does); function-valued attribute entries,
which the source assigns as element properties, by `handlers`. -/
inductive DNode where
  | text (s : String)
  | elem (tag : String) (uid : Option Nat) (idAttr : Option String)
      (classes : List String) (attrs : List (String × String))
      (handlers : List (String × Nat × List Val)) (children : List DNode)

/-- One reactive cell created by `state(x)`: the current value and the
subscriber map `{uid: comp}`. -/
structure Cell where
  value : Val
  subs : List (Nat × Nat × List Val)

/-- Global mutable state of the program: `_id`, `_id_stack` (head is the
top, i.e. the current render context), the cells, and the document. -/
structure St where
  idCtr : Nat
  stack : List (Nat × Nat × List Val)
  cells : List (Nat × Cell)
  doc : List DNode

/-- Runtime failures: fuel exhaustion of the model, JavaScript
`TypeError` (calling a missing method, e.g. `setAttribute` on
`undefined` or a text node, or `.match` on a non-string), and the
`null[0]` failure when the tag-name regex does not match. -/
inductive RErr where
  | fuel
  | typeErr
  | parseErr
  | stampErr

/-- Association-list lookup with `Nat` keys (JavaScript object access). -/
def lookupA {α : Type} : List (Nat × α) → Nat → Option α
  | [], _ => none
  | p :: ps, k => if p.1 = k then some p.2 else lookupA ps k

/-- Association-list assignment `o[k] = a`: overwrite the existing key in
place, otherwise append (new uid keys are larger than all existing ones,
so appending matches the enumeration order of JavaScript objects with
integer-like keys). -/
def updateA {α : Type} : List (Nat × α) → Nat → α → List (Nat × α)
  | [], k, a => [(k, a)]
  | p :: ps, k, a => if p.1 = k then (k, a) :: ps else p :: updateA ps k a

/-- Association-list deletion, modelling `delete o[k]`. -/
def removeA {α : Type} (l : List (Nat × α)) (k : Nat) : List (Nat × α) :=
  l.filter (fun p => p.1 != k)

/-- Keys of an association list. -/
def keysOf {α : Type} (l : List (Nat × α)) : List Nat := l.map Prod.fst

/-- Association-list assignment with `String` keys (attribute maps and
element properties). -/
def updateS {α : Type} : List (String × α) → String → α → List (String × α)
  | [], k, a => [(k, a)]
  | p :: ps, k, a => if p.1 = k then (k, a) :: ps else p :: updateS ps k a

/-- The cell bound to identifier `c` (cells referenced by the program
always exist; the default is never reached in the modelled scenarios). -/
def getCell (st : St) (c : Nat) : Cell :=
  (lookupA st.cells c).getD { value := .vnull, subs := [] }

/-- Current value of cell `c`. -/
def valOf (st : St) (c : Nat) : Val := (getCell st c).value

/-- Subscriber map of cell `c`. -/
def subsOf (st : St) (c : Nat) : List (Nat × Nat × List Val) :=
  (getCell st c).subs

/-- Update cell `c` in place. -/
def updCellF (st : St) (c : Nat) (f : Cell → Cell) : St :=
  { st with cells := st.cells.map (fun p => if p.1 = c then (p.1, f p.2) else p) }

/-- JavaScript truthiness test used by `if (!node)` in `RenderDOM`:
`undefined`, `null`, `0`, `false` and the empty string are falsy. -/
def falsy : Val → Bool
  | .vnull => true
  | .vnum n => n = 0
  | .vbool b => !b
  | .vstr s => s = ""
  | _ => false

mutual
/-- JavaScript `String(v)` coercion as used by `createTextNode` and
`setAttribute`. -/
def toStr : Val → String
  | .vnull => "undefined"
  | .vnum n => toString n
  | .vbool b => if b then "true" else "false"
  | .vstr s => s
  | .vcomp _ _ => "function"
  | .varr items => String.intercalate "," (toStrList items)
  | .vobj _ => "[object Object]"
/-- Stringification of the elements of an array value. -/
def toStrList : List Val → List String
  | [] => []
  | v :: vs => toStr v :: toStrList vs
end

/-- The `value` getter of `state`: look at `current_id()` (the top of
`_id_stack`); if a render context is active, register it in the
subscriber map under its identifier, overwriting any previous entry for
that identifier; finally return the stored value. -/
def readCell (st : St) (c : Nat) : Val × St :=
  match st.stack.head? with
  | some idc =>
      ((getCell st c).value,
       updCellF st c (fun cell => { cell with subs := updateA cell.subs idc.1 idc.2 }))
  | none => ((getCell st c).value, st)

/-- Run a component body, performing each cell read through `readCell`. -/
def runReadM : ReadM → St → Val × St
  | .pure v, st => (v, st)
  | .read c k, st =>
      let r := readCell st c
      runReadM (k r.1) r.2

/-- Cells a body would read, given the cell values (used to express
which cells a component invocation depends on). -/
def readsOf : ReadM → (Nat → Val) → List Nat
  | .pure _, _ => []
  | .read c k, env => c :: readsOf (k (env c)) env

/-- Characters that terminate a tag name or a fragment token in the tag
specifier grammar. -/
def isSig (c : Char) : Bool := c = '.' || c = '#'

/-- The match of `/^[^\x2e#]+/` on the tag specifier: the longest prefix
free of dots and hashes (empty list when the regex fails to match). -/
def takeTag (s : List Char) : List Char := s.takeWhile (fun c => !isSig c)

/-- Scanner equivalent to the global regex match for fragments
(`/\x2e[^\x2e#]+/g` when `sig` is the dot, `/#[^\x2e#]+/g` when `sig` is
the hash): collect every maximal nonempty run of non-sigil characters
that directly follows an occurrence of `sig`.  The `slice(1)` performed
by the source when consuming a match is fused in: tokens are returned
without their leading sigil.  The second argument is `some acc` while a
candidate token (reversed in `acc`) is being collected. -/
def scanGo (sig : Char) : List Char → Option (List Char) → List String
  | [], some acc => if acc.isEmpty then [] else [String.mk acc.reverse]
  | [], none => []
  | c :: rest, mode =>
    if isSig c then
      (match mode with
       | some acc => if acc.isEmpty then [] else [String.mk acc.reverse]
       | none => []) ++ scanGo sig rest (if c = sig then some [] else none)
    else
      match mode with
      | some acc => scanGo sig rest (some (c :: acc))
      | none => scanGo sig rest none

/-- All fragment tokens introduced by `sig` in a tag specifier. -/
def scanF (sig : Char) (s : List Char) : List String := scanGo sig s none

/-- The `classList.add` of the DOM: append the token unless present. -/
def addClass (l : List String) (s : String) : List String :=
  if s ∈ l then l else l ++ [s]

/-- The attribute loop of `RenderDOM`: function values become element
properties (live handlers), everything else is set as a stringified
plain attribute. -/
def applyAttrs (kvs : List (String × Val)) :
    List (String × String) × List (String × Nat × List Val) :=
  kvs.foldl (fun acc kv =>
    match kv.2 with
    | .vcomp cid args => (acc.1, updateS acc.2 kv.1 (cid, args))
    | w => (updateS acc.1 kv.1 (toStr w), acc.2)) ([], [])

/-- The statement `dom.setAttribute("data-uid", id)`: succeeds only on an
element node; on `undefined` (the render produced nothing) or on a text
node the call raises a `TypeError`. -/
def stamp : Option DNode → Nat → Except RErr DNode
  | none, _ => .error .stampErr
  | some (.text _), _ => .error .stampErr
  | some (.elem t _ i cs as hs ch), id => .ok (.elem t (some id) i cs as hs ch)

/-- The entry into a component render: `uid()` allocates the next
identifier and the new render context is pushed onto `_id_stack`. -/
def pushCtx (st : St) (cid : Nat) (args : List Val) : St :=
  { st with idCtr := st.idCtr + 1, stack := (st.idCtr, cid, args) :: st.stack }

/-- The model of `RenderDOM`.  The fuel bounds the depth of component
invocations; all other recursion is structural.  The returned state is
the global state at the moment the call returns or the exception
escapes — in the component arm the push of the render context is undone
only on the successful path, exactly as in the source, where
`_id_stack.pop()` is not protected by try/finally. -/
def render (prog : Prog) : Nat → Val → St → Except RErr (Option DNode) × St
  | 0, _, st => (.error .fuel, st)
  | fuel + 1, v, st =>
    if falsy v then
      (.ok none, st)
    else
      match v with
      | .vcomp cid args =>
        let id := st.idCtr
        let run := runReadM (prog cid args) (pushCtx st cid args)
        match render prog fuel run.1 run.2 with
        | (.error e, st2) => (.error e, st2)
        | (.ok o, st2) =>
          match stamp o id with
          | .error e => (.error e, st2)
          | .ok dn => (.ok (some dn), { st2 with stack := st2.stack.tail })
      | .varr items =>
        match items.head? with
        | some (.vstr s) =>
          let tagChars := takeTag s.data
          if tagChars.isEmpty then (.error .parseErr, st)
          else
            let attrs : Option (List (String × Val)) :=
              match items[1]? with
              | some (Val.vobj kvs) => some kvs
              | _ => none
            let children := items.drop (if attrs.isSome then 2 else 1)
            let avhs := applyAttrs (attrs.getD [])
            let res := children.foldl (fun (acc : Except RErr (List DNode) × St) child =>
              match acc with
              | (.error e, s2) => (.error e, s2)
              | (.ok ds, s2) =>
                match render prog fuel child s2 with
                | (.error e, s3) => (.error e, s3)
                | (.ok none, s3) => (.ok ds, s3)
                | (.ok (some d), s3) => (.ok (ds ++ [d]), s3)) (.ok [], st)
            match res with
            | (.error e, st2) => (.error e, st2)
            | (.ok ds, st2) =>
              (.ok (some (.elem tagChars.asString none (scanF '#' s.data).head?
                ((scanF '.' s.data).foldl addClass []) avhs.1 avhs.2 ds)), st2)
        | _ => (.error .typeErr, st)
      | _ => (.ok (some (.text (toStr v))), st)

/-- The body of the child loop of the element arm of `render`, named for
use in lemma statements (definitionally equal to the lambda inside
`render`). -/
def renderChildStep (prog : Prog) (fuel : Nat)
    (acc : Except RErr (List DNode) × St) (child : Val) :
    Except RErr (List DNode) × St :=
  match acc with
  | (.error e, s2) => (.error e, s2)
  | (.ok ds, s2) =>
    match render prog fuel child s2 with
    | (.error e, s3) => (.error e, s3)
    | (.ok none, s3) => (.ok ds, s3)
    | (.ok (some d), s3) => (.ok (ds ++ [d]), s3)

mutual
/-- Lookup of `querySelector` by stamped identifier inside one node. -/
def findN (id : Nat) : DNode → Option DNode
  | .text _ => none
  | .elem t u i cs as hs ch =>
      if u = some id then some (.elem t u i cs as hs ch) else findL id ch
/-- Document-order lookup by stamped identifier in a forest. -/
def findL (id : Nat) : List DNode → Option DNode
  | [] => none
  | d :: ds =>
      match findN id d with
      | some r => some r
      | none => findL id ds
end

/-- The selector query of `set`: first node in document order carrying
the given stamped identifier. -/
def findByUid (doc : List DNode) (id : Nat) : Option DNode := findL id doc

mutual
/-- Replacement of the first node carrying `id` (by `replaceWith`)
inside one node; the Boolean reports whether a replacement happened. -/
def replN (id : Nat) (dn : DNode) : DNode → DNode × Bool
  | .text s => (.text s, false)
  | .elem t u i cs as hs ch =>
      if u = some id then (dn, true)
      else
        let r := replL id dn ch
        (.elem t u i cs as hs r.1, r.2)
/-- Replacement of the first node carrying `id` in a forest. -/
def replL (id : Nat) (dn : DNode) : List DNode → List DNode × Bool
  | [] => ([], false)
  | d :: ds =>
      let r := replN id dn d
      if r.2 then (r.1 :: ds, true)
      else
        let rs := replL id dn ds
        (d :: rs.1, rs.2)
end

/-- The `el.replaceWith(dom)` step of `set`: replace, in place, the node
that the selector query found. -/
def replaceByUid (doc : List DNode) (id : Nat) (dn : DNode) : List DNode :=
  (replL id dn doc).1

mutual
/-- All stamped identifiers occurring in a node. -/
def uidsN : DNode → List Nat
  | .text _ => []
  | .elem _ u _ _ _ _ ch => u.toList ++ uidsL ch
/-- All stamped identifiers occurring in a forest. -/
def uidsL : List DNode → List Nat
  | [] => []
  | d :: ds => uidsN d ++ uidsL ds
end

/-- Removal of a subscriber entry, `delete subscribers[id]`. -/
def removeSubSt (st : St) (c : Nat) (id : Nat) : St :=
  updCellF st c (fun cell => { cell with subs := removeA cell.subs id })

/-- The notification loop of `set`, iterating over the snapshot that
`Object.entries(subscribers)` took of the subscriber map: for each
recorded context, look its stamped node up in the document; if present,
invoke the component closure directly (`node()`), render the returned
description, stamp it with the same identifier and replace the old
node; if absent, delete the entry from the live map. -/
def processEntries (prog : Prog) (fuel : Nat) (c : Nat) :
    List (Nat × Nat × List Val) → St → Except RErr Unit × St
  | [], st => (.ok (), st)
  | e :: rest, st =>
    match findByUid st.doc e.1 with
    | some _ =>
      let run := runReadM (prog e.2.1 e.2.2) st
      match render prog fuel run.1 run.2 with
      | (.error err, st2) => (.error err, st2)
      | (.ok o, st2) =>
        match stamp o e.1 with
        | .error err => (.error err, st2)
        | .ok dn =>
          processEntries prog fuel c rest { st2 with doc := replaceByUid st2.doc e.1 dn }
    | none =>
      processEntries prog fuel c rest (removeSubSt st c e.1)

/-- The model of `set(x)` on cell `c`: store the new value, then run the
notification loop over a snapshot of the subscriber entries. -/
def setCell (prog : Prog) (fuel : Nat) (c : Nat) (x : Val) (st : St) :
    Except RErr Unit × St :=
  let st1 := updCellF st c (fun cell => { cell with value := x })
  processEntries prog fuel c (subsOf st1 c) st1

/-- The mounting step `document.body.appendChild(RenderDOM(app))`. -/
def mount (prog : Prog) (fuel : Nat) (v : Val) (st : St) : Except RErr Unit × St :=
  match render prog fuel v st with
  | (.error e, st2) => (.error e, st2)
  | (.ok none, st2) => (.error .typeErr, st2)
  | (.ok (some d), st2) => (.ok (), { st2 with doc := st2.doc ++ [d] })

/-- Primitive values in the sense of the specification (anything that is
neither a function, an array, nor an attribute object). -/
def isPrim : Val → Bool
  | .vnull => true
  | .vnum _ => true
  | .vbool _ => true
  | .vstr _ => true
  | _ => false

/-- A program whose single component returns a falsy description. -/
def progNullComp : Prog := fun _ _ => .pure .vnull

/-- One cell holding `0`, empty document, empty stack. -/
def stInit : St :=
  { idCtr := 0, stack := [], cells := [(0, { value := .vnum 0, subs := [] })], doc := [] }

/-! ### Unfolding and state-preservation lemmas -/

theorem render_succ_falsy (prog : Prog) (fuel : Nat) (v : Val) (st : St)
    (h : falsy v = true) : render prog (fuel + 1) v st = (.ok none, st) := by
  simp only [render]
  rw [h]
  simp

theorem render_comp_eq (prog : Prog) (fuel : Nat) (cid : Nat) (args : List Val) (st : St) :
    render prog (fuel + 1) (.vcomp cid args) st =
      (match render prog fuel (runReadM (prog cid args) (pushCtx st cid args)).1
          (runReadM (prog cid args) (pushCtx st cid args)).2 with
       | (.error e, st2) => (.error e, st2)
       | (.ok o, st2) =>
         match stamp o st.idCtr with
         | .error e => (.error e, st2)
         | .ok dn => (.ok (some dn), { st2 with stack := st2.stack.tail })) := rfl

theorem readCell_stack (st : St) (c : Nat) : ((readCell st c).2).stack = st.stack := by
  unfold readCell
  cases h : st.stack.head? <;> simp [h, updCellF]

theorem readCell_doc (st : St) (c : Nat) : ((readCell st c).2).doc = st.doc := by
  unfold readCell
  cases h : st.stack.head? <;> simp [h, updCellF]

theorem readCell_idCtr (st : St) (c : Nat) : ((readCell st c).2).idCtr = st.idCtr := by
  unfold readCell
  cases h : st.stack.head? <;> simp [h, updCellF]

theorem runReadM_stack (m : ReadM) (st : St) : ((runReadM m st).2).stack = st.stack := by
  induction m generalizing st with
  | pure v => rfl
  | read c k ih =>
    simp only [runReadM]
    rw [ih]
    exact readCell_stack st c

theorem runReadM_doc (m : ReadM) (st : St) : ((runReadM m st).2).doc = st.doc := by
  induction m generalizing st with
  | pure v => rfl
  | read c k ih =>
    simp only [runReadM]
    rw [ih]
    exact readCell_doc st c

theorem runReadM_idCtr (m : ReadM) (st : St) : ((runReadM m st).2).idCtr = st.idCtr := by
  induction m generalizing st with
  | pure v => rfl
  | read c k ih =>
    simp only [runReadM]
    rw [ih]
    exact readCell_idCtr st c

/-! ### Claims -/

/-- Claim C1 (evidence of the code bug): for the component that returns a
falsy description, `render` raises while stamping, and the context
pushed for the invocation is still on `_id_stack` after the failure —
the push is not matched by a pop on the raising exit path, contradicting
the specified stack-balance invariant. -/
theorem contextStackImbalanceOnFailure :
    (render progNullComp 3 (.vcomp 0 []) stInit).1 = .error .stampErr ∧
    (render progNullComp 3 (.vcomp 0 []) stInit).2.stack = [(0, 0, [])] :=
  ⟨rfl, rfl⟩

/-- Claim C10 (confirmed): whenever a component invocation returns a
falsy (empty) description, `render` fails with the stamping error (the
`setAttribute` call on `undefined` throws) and the render context pushed
for the invocation is left on the stack: the final stack is the pushed
context consed onto the original stack, so it is not restored. -/
theorem renderFalsyBodyLeavesContext (prog : Prog) (fuel : Nat) (cid : Nat)
    (args : List Val) (st : St)
    (h : falsy (runReadM (prog cid args) (pushCtx st cid args)).1 = true) :
    render prog (fuel + 2) (.vcomp cid args) st =
      (.error .stampErr, (runReadM (prog cid args) (pushCtx st cid args)).2) ∧
    ((runReadM (prog cid args) (pushCtx st cid args)).2).stack =
      (st.idCtr, cid, args) :: st.stack := by
  constructor
  · rw [render_comp_eq]
    rw [render_succ_falsy prog fuel _ _ h]
    rfl
  · rw [runReadM_stack]
    rfl

/-- Witness for the C10 theorem at a concrete input. -/
theorem renderFalsyBodyLeavesContextWitness :
    render progNullComp 3 (.vcomp 0 []) stInit =
      (.error .stampErr, (runReadM (progNullComp 0 []) (pushCtx stInit 0 [])).2) ∧
    ((runReadM (progNullComp 0 []) (pushCtx stInit 0 [])).2).stack =
      (stInit.idCtr, 0, []) :: stInit.stack :=
  renderFalsyBodyLeavesContext progNullComp 1 0 [] stInit rfl

/-- Claim C4 (counterexample): the primitive `0` does not produce a text
node; it renders to nothing, and so do `false` and the empty string —
the falsy test `if (!node)` of the source conflates them with absence. -/
theorem primitiveZeroRendersToNothing :
    render progNullComp 1 (.vnum 0) stInit = (.ok none, stInit) ∧
    render progNullComp 1 (.vbool false) stInit = (.ok none, stInit) ∧
    render progNullComp 1 (.vstr "") stInit = (.ok none, stInit) :=
  ⟨rfl, rfl, rfl⟩

/-- Claim C4 (amended): a truthy primitive renders to a text node with
the stringified value, while a falsy input — absence, `null`, but also
the primitives `0`, `false` and the empty string — renders to nothing. -/
theorem primitiveRendering (prog : Prog) (fuel : Nat) (v : Val) (st : St)
    (h : isPrim v = true) :
    render prog (fuel + 1) v st =
      ((if falsy v = true then .ok none else .ok (some (.text (toStr v)))), st) := by
  cases v with
  | vnull => simp [render, falsy]
  | vnum n =>
    by_cases hn : n = 0 <;> simp [render, falsy, hn]
  | vbool b =>
    cases b <;> simp [render, falsy]
  | vstr s =>
    by_cases hs : s = "" <;> simp [render, falsy, hs]
  | vcomp cid args => simp [isPrim] at h
  | varr items => simp [isPrim] at h
  | vobj kvs => simp [isPrim] at h

/-- Witness for the amended C4 theorem at concrete inputs. -/
theorem primitiveRenderingWitness :
    render progNullComp 1 (.vnum 5) stInit =
      ((if falsy (.vnum 5) = true then .ok none
        else .ok (some (.text (toStr (.vnum 5))))), stInit) :=
  primitiveRendering progNullComp 0 (.vnum 5) stInit rfl

/-- A program whose single component reads cell `0` and returns a plain
paragraph description. -/
def progReadP : Prog := fun _ _ => .read 0 (fun _ => .pure (.varr [.vstr "p"]))

/-- A state with one subscriber (context `0`) of cell `0`, whose stamped
node is present in the document; the uid counter is past `0`. -/
def stOneSub : St :=
  { idCtr := 7, stack := [],
    cells := [(0, { value := .vnum 0, subs := [(0, 0, [])] })],
    doc := [.elem "p" (some 0) none [] [] [] []] }

/-- Claim C2 (counterexample): a write with one live subscriber... the
re-render succeeds and replaces the node, but no fresh render context is
created for the subscriber's invocation: the uid counter is untouched
(`uid()` is never called for it), the context stack never becomes
visible to the subscriber's reads (the subscriber map is left exactly as
it was even though the component read the cell again), refuting the
claim that the component reference is re-invoked through the renderer
under a freshly pushed render context. -/
theorem setDoesNotPushFreshContext :
    (setCell progReadP 3 0 (.vnum 1) stOneSub).1 = .ok () ∧
    ((setCell progReadP 3 0 (.vnum 1) stOneSub).2).idCtr = 7 ∧
    subsOf (setCell progReadP 3 0 (.vnum 1) stOneSub).2 0 = [(0, 0, [])] ∧
    ((setCell progReadP 3 0 (.vnum 1) stOneSub).2).doc =
      [.elem "p" (some 0) none [] [] [] []] ∧
    valOf (setCell progReadP 3 0 (.vnum 1) stOneSub).2 0 = .vnum 1 :=
  ⟨rfl, rfl, rfl, rfl, rfl⟩

/-- Claim C2 (amended): for a subscriber whose stamped node is locatable,
the write invokes the subscriber's component closure directly — the
body runs on the unchanged context stack, no new render context is
pushed for it — renders the returned description, stamps the resulting
node with the same identifier, and replaces the old node in the
document; only component references nested inside the returned
description are rendered through fresh contexts. -/
theorem setLiveEntryMechanism (prog : Prog) (fuel c : Nat) (id cid : Nat)
    (args : List Val) (rest : List (Nat × Nat × List Val)) (st : St) (dn0 : DNode)
    (hfind : findByUid st.doc id = some dn0)
    (t : String) (u : Option Nat) (i : Option String) (cs : List String)
    (as2 : List (String × String)) (hs2 : List (String × Nat × List Val))
    (ch : List DNode) (st2 : St)
    (hrender : render prog fuel (runReadM (prog cid args) st).1
      (runReadM (prog cid args) st).2 = (.ok (some (.elem t u i cs as2 hs2 ch)), st2)) :
    processEntries prog fuel c ((id, cid, args) :: rest) st =
      processEntries prog fuel c rest
        { st2 with doc := replaceByUid st2.doc id (.elem t (some id) i cs as2 hs2 ch) } ∧
    ((runReadM (prog cid args) st).2).stack = st.stack := by
  constructor
  · simp only [processEntries, hfind]
    rw [hrender]
    rfl
  · exact runReadM_stack _ _

/-- Witness for the amended C2 theorem at a concrete input. -/
theorem setLiveEntryMechanismWitness :
    processEntries progReadP 1 0 [(0, 0, [])] stOneSub =
      processEntries progReadP 1 0 []
        { (runReadM (progReadP 0 []) stOneSub).2 with
            doc := replaceByUid ((runReadM (progReadP 0 []) stOneSub).2).doc 0
              (.elem "p" (some 0) none [] [] [] []) } ∧
    ((runReadM (progReadP 0 []) stOneSub).2).stack = stOneSub.stack :=
  setLiveEntryMechanism progReadP 1 0 0 0 [] [] stOneSub
    (.elem "p" (some 0) none [] [] [] []) rfl
    "p" none none [] [] [] [] (runReadM (progReadP 0 []) stOneSub).2 rfl

/-- A program with a parent component returning a description that embeds
a child component reference, and the child reading cell `0`. -/
def progNested : Prog := fun cid _ =>
  match cid with
  | 0 => .pure (.varr [.vstr "div", .vcomp 1 []])
  | _ => .read 0 (fun w => .pure (.varr [.vstr "p", w]))

/-- One subscriber (context `0`, the parent) of cell `0`, live in the
document; the next uid is `1`. -/
def stNested : St :=
  { idCtr := 1, stack := [],
    cells := [(0, { value := .vnum 0, subs := [(0, 0, [])] })],
    doc := [.elem "div" (some 0) none [] [] [] []] }

/-- Claim C9 (counterexample): a write performed outside any render, on a
subscriber whose description embeds a child component reference that
reads the written cell, does not leave the subscriber mapping unchanged:
the nested render of the child pushes a fresh context and the child's
read registers a brand-new entry (identifier `1`) next to the old one. -/
theorem setRegistersNestedSubscriber :
    (setCell progNested 4 0 (.vnum 7) stNested).1 = .ok () ∧
    subsOf (setCell progNested 4 0 (.vnum 7) stNested).2 0 =
      [(0, 0, []), (1, 1, [])] :=
  ⟨rfl, rfl⟩

/-- Claim C9 (amended): a component body that runs while the context
stack is empty registers nothing: running any body with an empty stack
returns the state unchanged, so the subscriber's own reads during a
top-level write cause no registration; only nested component references
rendered from the returned description (under freshly pushed contexts)
can add entries. -/
theorem runBodyEmptyStackNoRegistration (m : ReadM) (st : St) (h : st.stack = []) :
    (runReadM m st).2 = st := by
  induction m generalizing st with
  | pure v => rfl
  | read c k ih =>
    have hr : readCell st c = ((getCell st c).value, st) := by
      unfold readCell
      rw [h]
      rfl
    simp only [runReadM, hr]
    exact ih ((getCell st c).value) st h

/-- Witness for the amended C9 theorem at a concrete input. -/
theorem runBodyEmptyStackNoRegistrationWitness :
    (runReadM (.read 0 (fun w => .pure w)) stInit).2 = stInit :=
  runBodyEmptyStackNoRegistration (.read 0 (fun w => .pure w)) stInit rfl

/-! ### Association-list lemmas -/

theorem lookupA_updateA_self {α : Type} (l : List (Nat × α)) (k : Nat) (a : α) :
    lookupA (updateA l k a) k = some a := by
  induction l with
  | nil => simp [updateA, lookupA]
  | cons p ps ih =>
    by_cases h : p.1 = k
    · simp [updateA, h, lookupA]
    · simp [updateA, h, lookupA, ih]

theorem updateA_self {α : Type} (l : List (Nat × α)) (k : Nat) (a : α) :
    updateA (updateA l k a) k a = updateA l k a := by
  induction l with
  | nil => simp [updateA]
  | cons p ps ih =>
    by_cases h : p.1 = k
    · simp [updateA, h]
    · simp [updateA, h, ih]

theorem keysOf_updateA {α : Type} (l : List (Nat × α)) (k : Nat) (a : α) :
    keysOf (updateA l k a) = if k ∈ keysOf l then keysOf l else keysOf l ++ [k] := by
  induction l with
  | nil => simp [updateA, keysOf]
  | cons p ps ih =>
    simp only [keysOf] at ih ⊢
    by_cases h : p.1 = k
    · simp [updateA, h]
    · simp only [updateA, if_neg h, List.map_cons]
      rw [ih]
      by_cases hm : k ∈ List.map Prod.fst ps
      · rw [if_pos hm, if_pos (List.mem_cons_of_mem _ hm)]
      · rw [if_neg hm, if_neg ?hn]
        · simp
        case hn =>
          intro hcontra
          rcases List.mem_cons.mp hcontra with he | hin
          · exact h he.symm
          · exact hm hin

theorem count_keysOf_updateA {α : Type} (l : List (Nat × α)) (k : Nat) (a : α)
    (hnd : (keysOf l).Nodup) : (keysOf (updateA l k a)).count k = 1 := by
  rw [keysOf_updateA]
  by_cases hm : k ∈ keysOf l
  · rw [if_pos hm]
    exact List.count_eq_one_of_mem hnd hm
  · rw [if_neg hm]
    rw [List.count_append]
    rw [List.count_eq_zero_of_not_mem hm]
    simp

theorem lookupA_map_upd (l : List (Nat × Cell)) (c : Nat) (f : Cell → Cell) :
    lookupA (l.map (fun p => if p.1 = c then (p.1, f p.2) else p)) c =
      (lookupA l c).map f := by
  induction l with
  | nil => simp [lookupA]
  | cons p ps ih =>
    by_cases h : p.1 = c
    · simp [lookupA, h]
    · simp [lookupA, h, ih]

theorem getCell_updCellF_self (st : St) (c : Nat) (f : Cell → Cell)
    (hc : (lookupA st.cells c).isSome = true) :
    getCell (updCellF st c f) c = f (getCell st c) := by
  unfold getCell updCellF
  rw [lookupA_map_upd]
  cases h : lookupA st.cells c with
  | none => rw [h] at hc; simp at hc
  | some cell => simp

theorem lookupA_updCellF_isSome (st : St) (c : Nat) (f : Cell → Cell)
    (hc : (lookupA st.cells c).isSome = true) :
    (lookupA (updCellF st c f).cells c).isSome = true := by
  unfold updCellF
  simp only [lookupA_map_upd]
  cases h : lookupA st.cells c with
  | none => rw [h] at hc; simp at hc
  | some cell => simp

/-- Registration performed by one read under an active context. -/
theorem subsOf_readCell (st : St) (c : Nat) (idc : Nat × Nat × List Val)
    (hstack : st.stack.head? = some idc)
    (hc : (lookupA st.cells c).isSome = true) :
    subsOf (readCell st c).2 c = updateA (subsOf st c) idc.1 idc.2 := by
  unfold readCell
  rw [hstack]
  simp only [subsOf]
  rw [getCell_updCellF_self st c _ hc]

/-- Claim C8 (confirmed): a cell read performed while a render context is
active registers exactly one subscriber entry for the active context's
identifier — the identifier maps to the context's component closure,
the identifier occurs exactly once among the keys, and an immediately
repeated read by the same context leaves the subscriber map unchanged
(idempotent overwrite rather than duplication). -/
theorem readRegistersExactlyOnce (st : St) (c : Nat) (idc : Nat × Nat × List Val)
    (hstack : st.stack.head? = some idc)
    (hc : (lookupA st.cells c).isSome = true)
    (hnd : (keysOf (subsOf st c)).Nodup) :
    lookupA (subsOf (readCell st c).2 c) idc.1 = some idc.2 ∧
    (keysOf (subsOf (readCell st c).2 c)).count idc.1 = 1 ∧
    subsOf (readCell (readCell st c).2 c).2 c = subsOf (readCell st c).2 c := by
  have h1 := subsOf_readCell st c idc hstack hc
  have hstack2 : ((readCell st c).2).stack.head? = some idc := by
    rw [readCell_stack]
    exact hstack
  have hc2 : (lookupA ((readCell st c).2).cells c).isSome = true := by
    unfold readCell
    rw [hstack]
    exact lookupA_updCellF_isSome st c _ hc
  have h2 := subsOf_readCell (readCell st c).2 c idc hstack2 hc2
  refine ⟨?_, ?_, ?_⟩
  · rw [h1]
    exact lookupA_updateA_self _ _ _
  · rw [h1]
    exact count_keysOf_updateA _ _ _ hnd
  · rw [h2, h1]
    exact updateA_self _ _ _

/-- Witness for the C8 theorem at a concrete input: a context is active
and the cell exists, with an initially clean subscriber map. -/
theorem readRegistersExactlyOnceWitness :
    lookupA (subsOf (readCell
      { stInit with stack := [(4, 9, [])] } 0).2 0) 4 = some (9, []) ∧
    (keysOf (subsOf (readCell
      { stInit with stack := [(4, 9, [])] } 0).2 0)).count 4 = 1 ∧
    subsOf (readCell (readCell
      { stInit with stack := [(4, 9, [])] } 0).2 0).2 0 =
      subsOf (readCell { stInit with stack := [(4, 9, [])] } 0).2 0 :=
  readRegistersExactlyOnce { stInit with stack := [(4, 9, [])] } 0 (4, 9, [])
    rfl rfl (by decide)

/-! ### Tag-specifier grammar (claim C7) -/

/-- One fragment of a tag specifier: a class fragment or an id fragment. -/
inductive Frag where
  | cls (tok : String)
  | idf (tok : String)

/-- The sigil introducing a fragment. -/
def fragSig : Frag → Char
  | .cls _ => '.'
  | .idf _ => '#'

/-- The token of a fragment. -/
def tokOf : Frag → String
  | .cls t => t
  | .idf t => t

/-- Characters of one fragment as written in the specifier. -/
def fragChars (f : Frag) : List Char := fragSig f :: (tokOf f).data

/-- Characters of a fragment list as written in the specifier. -/
def fragsChars (fs : List Frag) : List Char := (fs.map fragChars).flatten

/-- A well-formed token: nonempty and free of dots and hashes. -/
def goodTok (t : String) : Prop := t.data ≠ [] ∧ ∀ ch ∈ t.data, isSig ch = false

instance (t : String) : Decidable (goodTok t) := by
  unfold goodTok
  infer_instance

/-- A tag specifier assembled from a tag name and fragments. -/
def specOf (tag : String) (fs : List Frag) : String := ⟨tag.data ++ fragsChars fs⟩

/-- Tokens of the fragments carrying the given sigil, in order. -/
def sigToks (sig : Char) (fs : List Frag) : List String :=
  fs.filterMap (fun f => if fragSig f = sig then some (tokOf f) else none)

/-- Class tokens of a fragment list, in order. -/
def clsToks (fs : List Frag) : List String :=
  fs.filterMap (fun f => match f with | .cls t => some t | _ => none)

/-- Id tokens of a fragment list, in order. -/
def idToks (fs : List Frag) : List String :=
  fs.filterMap (fun f => match f with | .idf t => some t | _ => none)

theorem sigToks_dot (fs : List Frag) : sigToks '.' fs = clsToks fs := by
  induction fs with
  | nil => rfl
  | cons f fs ih =>
    cases f <;> simp [sigToks, clsToks, fragSig, tokOf] at ih ⊢ <;>
      first
      | exact ⟨rfl, ih⟩
      | exact ih

theorem sigToks_hash (fs : List Frag) : sigToks '#' fs = idToks fs := by
  induction fs with
  | nil => rfl
  | cons f fs ih =>
    cases f <;> simp [sigToks, idToks, fragSig, tokOf] at ih ⊢ <;>
      first
      | exact ⟨rfl, ih⟩
      | exact ih

theorem takeWhile_append_all {p : Char → Bool} (l r : List Char)
    (h : ∀ c ∈ l, p c = true) :
    (l ++ r).takeWhile p = l ++ r.takeWhile p := by
  induction l with
  | nil => simp
  | cons c t ih =>
    have hc : p c = true := h c (List.mem_cons_self c t)
    simp only [List.cons_append, List.takeWhile_cons, hc]
    rw [ih (fun d hd => h d (List.mem_cons_of_mem c hd))]
    simp

theorem takeWhile_fragsChars (fs : List Frag) :
    (fragsChars fs).takeWhile (fun c => !isSig c) = [] := by
  cases fs with
  | nil => rfl
  | cons f fs =>
    have hsig : isSig (fragSig f) = true := by
      cases f <;> rfl
    simp [fragsChars, fragChars, List.takeWhile_cons, hsig]

/-- The tag-name match on a well-formed specifier returns the tag name. -/
theorem takeTag_specOf (tag : String) (fs : List Frag) (htag : goodTok tag) :
    takeTag (specOf tag fs).data = tag.data := by
  unfold takeTag specOf
  show (tag.data ++ fragsChars fs).takeWhile (fun c => !isSig c) = tag.data
  rw [takeWhile_append_all tag.data (fragsChars fs)
    (fun c hc => by rw [htag.2 c hc]; rfl)]
  rw [takeWhile_fragsChars]
  simp

/-- The emission performed by the scanner when a token run ends. -/
def emitM : Option (List Char) → List String
  | none => []
  | some acc => if acc.isEmpty then [] else [String.mk acc.reverse]

theorem scanGo_skip (sig : Char) (l r : List Char) (h : ∀ c ∈ l, isSig c = false) :
    scanGo sig (l ++ r) none = scanGo sig r none := by
  induction l with
  | nil => rfl
  | cons c t ih =>
    have hc : isSig c = false := h c (List.mem_cons_self c t)
    simp only [List.cons_append, scanGo, hc]
    simp only [Bool.false_eq_true, if_false]
    exact ih (fun d hd => h d (List.mem_cons_of_mem c hd))

theorem scanGo_collect (sig : Char) (tok : List Char) (r : List Char)
    (h : ∀ c ∈ tok, isSig c = false) :
    ∀ acc, scanGo sig (tok ++ r) (some acc) = scanGo sig r (some (tok.reverse ++ acc)) := by
  induction tok with
  | nil => intro acc; simp
  | cons c t ih =>
    intro acc
    have hc : isSig c = false := h c (List.mem_cons_self c t)
    simp only [List.cons_append, scanGo, hc]
    simp only [Bool.false_eq_true, if_false]
    show scanGo sig (t ++ r) (some (c :: acc)) = _
    rw [ih (fun d hd => h d (List.mem_cons_of_mem c hd)) (c :: acc)]
    simp

/-- The scanner on the fragment part of a specifier produces exactly the
tokens of the fragments carrying the scanned sigil. -/
theorem scanGo_frags (sig : Char) (fs : List Frag)
    (hfs : ∀ f ∈ fs, goodTok (tokOf f)) :
    ∀ mode, scanGo sig (fragsChars fs) mode = emitM mode ++ sigToks sig fs := by
  induction fs with
  | nil =>
    intro mode
    cases mode with
    | none => rfl
    | some acc => simp [fragsChars, scanGo, emitM, sigToks]
  | cons f fs ih =>
    intro mode
    have hgf := hfs f (List.mem_cons_self f fs)
    have hrest : ∀ g ∈ fs, goodTok (tokOf g) :=
      fun g hg => hfs g (List.mem_cons_of_mem f hg)
    have hsigf : isSig (fragSig f) = true := by cases f <;> rfl
    have hstep : scanGo sig (fragsChars (f :: fs)) mode =
        emitM mode ++ scanGo sig ((tokOf f).data ++ fragsChars fs)
          (if fragSig f = sig then some [] else none) := by
      show scanGo sig (fragSig f :: ((tokOf f).data ++ fragsChars fs)) mode = _
      cases mode with
      | none => simp [scanGo, hsigf, emitM]
      | some acc => simp [scanGo, hsigf, emitM]
    rw [hstep]
    by_cases hf : fragSig f = sig
    · rw [if_pos hf]
      rw [scanGo_collect sig (tokOf f).data (fragsChars fs) hgf.2 []]
      have hne : ((tokOf f).data.reverse ++ []).isEmpty = false := by
        rcases hr : (tokOf f).data with _ | ⟨c, t⟩
        · exact absurd hr hgf.1
        · simp
      have hcase : scanGo sig (fragsChars fs) (some ((tokOf f).data.reverse ++ [])) =
          emitM (some ((tokOf f).data.reverse ++ [])) ++ sigToks sig fs := ih hrest _
      rw [hcase]
      have htokeq : emitM (some ((tokOf f).data.reverse ++ [])) = [tokOf f] := by
        simp only [emitM, hne]
        simp
      rw [htokeq]
      have hsig2 : sigToks sig (f :: fs) = tokOf f :: sigToks sig fs := by
        simp [sigToks, hf]
      rw [hsig2]
      simp
    · rw [if_neg hf]
      rw [scanGo_skip sig (tokOf f).data (fragsChars fs) hgf.2]
      rw [ih hrest none]
      have hsig2 : sigToks sig (f :: fs) = sigToks sig fs := by
        simp [sigToks, hf]
      rw [hsig2]
      rfl

/-- Membership in the `classList.add` fold. -/
theorem mem_foldl_addClass (l : List String) :
    ∀ init s2, s2 ∈ l.foldl addClass init ↔ s2 ∈ init ∨ s2 ∈ l := by
  induction l with
  | nil => intro init s2; simp
  | cons c t ih =>
    intro init s2
    rw [List.foldl_cons, ih]
    unfold addClass
    by_cases hc : c ∈ init
    · rw [if_pos hc]
      constructor
      · rintro (h | h)
        · exact Or.inl h
        · exact Or.inr (List.mem_cons_of_mem c h)
      · rintro (h | h)
        · exact Or.inl h
        · rcases List.mem_cons.mp h with he | hm
          · exact Or.inl (he ▸ hc)
          · exact Or.inr hm
    · rw [if_neg hc]
      constructor
      · rintro (h | h)
        · rcases List.mem_append.mp h with hm | hm
          · exact Or.inl hm
          · exact Or.inr (List.mem_cons.mpr (Or.inl (List.mem_singleton.mp hm)))
        · exact Or.inr (List.mem_cons_of_mem c h)
      · rintro (h | h)
        · exact Or.inl (List.mem_append.mpr (Or.inl h))
        · rcases List.mem_cons.mp h with he | hm
          · exact Or.inl (List.mem_append.mpr (Or.inr (by simp [he])))
          · exact Or.inr hm

/-- Claim C7 (confirmed): rendering an element description whose
specifier is a tag name followed by any interleca of id and class
fragments yields, independently of the fragment order, an element with
that tag name, with the first id token as its id, and with the class
tokens as its classes (each class token present exactly as often as
`classList` keeps it); at most the first id fragment is meaningful and
all class fragments accumulate. -/
theorem render_singleton_spec (prog : Prog) (fuel : Nat) (s : String) (st : St)
    (hne : (takeTag s.data).isEmpty = false) :
    render prog (fuel + 1) (.varr [.vstr s]) st =
      (.ok (some (.elem (takeTag s.data).asString none (scanF '#' s.data).head?
        ((scanF '.' s.data).foldl addClass []) [] [] [])), st) := by
  have h1 : render prog (fuel + 1) (.varr [.vstr s]) st =
      (if (takeTag s.data).isEmpty then (.error .parseErr, st)
       else (.ok (some (.elem (takeTag s.data).asString none (scanF '#' s.data).head?
         ((scanF '.' s.data).foldl addClass []) [] [] [])), st)) := rfl
  rw [h1, hne]
  simp

theorem tagSpecifierParsing (prog : Prog) (fuel : Nat) (st : St)
    (tag : String) (fs : List Frag)
    (htag : goodTok tag) (hfs : ∀ f ∈ fs, goodTok (tokOf f)) :
    render prog (fuel + 1) (.varr [.vstr (specOf tag fs)]) st =
      (.ok (some (.elem tag none (idToks fs).head?
        ((clsToks fs).foldl addClass []) [] [] [])), st) ∧
    (∀ s2, s2 ∈ (clsToks fs).foldl addClass [] ↔ s2 ∈ clsToks fs) := by
  constructor
  · have hdata : (specOf tag fs).data = tag.data ++ fragsChars fs := rfl
    have htake := takeTag_specOf tag fs htag
    have hcls : scanF '.' (specOf tag fs).data = clsToks fs := by
      unfold scanF
      rw [hdata, scanGo_skip '.' tag.data (fragsChars fs)
        (fun c hc => htag.2 c hc)]
      rw [scanGo_frags '.' fs hfs none]
      rw [sigToks_dot]
      rfl
    have hids : scanF '#' (specOf tag fs).data = idToks fs := by
      unfold scanF
      rw [hdata, scanGo_skip '#' tag.data (fragsChars fs)
        (fun c hc => htag.2 c hc)]
      rw [scanGo_frags '#' fs hfs none]
      rw [sigToks_hash]
      rfl
    have hne : (takeTag (specOf tag fs).data).isEmpty = false := by
      rw [htake]
      rcases h : tag.data with _ | ⟨c, t⟩
      · exact absurd h htag.1
      · rfl
    rw [render_singleton_spec prog fuel (specOf tag fs) st hne, htake, hcls, hids]
    rfl
  · intro s2
    rw [mem_foldl_addClass]
    simp

/-- Witness for the C7 theorem on the specifier of the specification's
own scenario, with the id fragment placed between class fragments. -/
theorem tagSpecifierParsingWitness :
    render progNullComp 1
      (.varr [.vstr (specOf "button" [.cls "primary", .idf "go", .cls "large"])]) stInit =
      (.ok (some (.elem "button" none
        (idToks [.cls "primary", .idf "go", .cls "large"]).head?
        ((clsToks [.cls "primary", .idf "go", .cls "large"]).foldl addClass [])
        [] [] [])), stInit) ∧
    (∀ s2, s2 ∈ (clsToks [.cls "primary", .idf "go", .cls "large"]).foldl addClass [] ↔
      s2 ∈ clsToks [.cls "primary", .idf "go", .cls "large"]) :=
  tagSpecifierParsing progNullComp 0 stInit "button"
    [.cls "primary", .idf "go", .cls "large"] (by decide) (by decide)

/-! ### State evolution invariant for rendering -/

theorem lookupA_updateA_ne {α : Type} (l : List (Nat × α)) (k k2 : Nat) (a : α)
    (h : k ≠ k2) : lookupA (updateA l k a) k2 = lookupA l k2 := by
  induction l with
  | nil => simp [updateA, lookupA, h]
  | cons p ps ih =>
    by_cases hp : p.1 = k
    · simp [updateA, hp, lookupA, h]
    · simp [updateA, hp, lookupA, ih]

theorem lookupA_map_upd_ne (l : List (Nat × Cell)) (c c2 : Nat) (f : Cell → Cell)
    (h : c2 ≠ c) :
    lookupA (l.map (fun p => if p.1 = c then (p.1, f p.2) else p)) c2 = lookupA l c2 := by
  induction l with
  | nil => simp [lookupA]
  | cons p ps ih =>
    by_cases hp : p.1 = c
    · have hp2 : p.1 ≠ c2 := by rw [hp]; exact Ne.symm h
      simp [lookupA, hp, hp2, ih, Ne.symm h, h]
    · by_cases hp2 : p.1 = c2
      · simp [lookupA, hp, hp2, ih, Ne.symm h, h]
      · simp [lookupA, hp, hp2, ih]

theorem keysOf_map_upd (l : List (Nat × Cell)) (c : Nat) (f : Cell → Cell) :
    keysOf (l.map (fun p => if p.1 = c then (p.1, f p.2) else p)) = keysOf l := by
  induction l with
  | nil => rfl
  | cons p ps ih =>
    by_cases hp : p.1 = c <;> simp [keysOf, hp] at ih ⊢ <;> exact ih

theorem getCell_updCellF_ne (st : St) (c c2 : Nat) (f : Cell → Cell) (h : c2 ≠ c) :
    getCell (updCellF st c f) c2 = getCell st c2 := by
  unfold getCell updCellF
  rw [lookupA_map_upd_ne st.cells c c2 f h]

/-- Facts preserved from a state to a later state of the same execution:
the document and the cell values are untouched, the uid counter grows,
cells are neither created nor dropped, subscriber keys are never
deleted, subscriber entries under identifiers that are neither on the
initial stack nor freshly allocated are untouched, every new subscriber
key is either an initial stack identifier or freshly allocated, and
every context on the final stack is an initial one or freshly pushed. -/
structure Pres (st st2 : St) : Prop where
  doc_eq : st2.doc = st.doc
  idCtr_le : st.idCtr ≤ st2.idCtr
  val_eq : ∀ c, valOf st2 c = valOf st c
  cellKeys_eq : keysOf st2.cells = keysOf st.cells
  subKeys_mono : ∀ c id, id ∈ keysOf (subsOf st c) → id ∈ keysOf (subsOf st2 c)
  subEntry_pres : ∀ c id comp, id < st.idCtr → (∀ x, (id, x) ∉ st.stack) →
    lookupA (subsOf st c) id = some comp → lookupA (subsOf st2 c) id = some comp
  subKeys_new : ∀ c id, id ∈ keysOf (subsOf st2 c) →
    id ∈ keysOf (subsOf st c) ∨ st.idCtr ≤ id ∨ ∃ x, (id, x) ∈ st.stack
  stack_sub : ∀ e, e ∈ st2.stack → e ∈ st.stack ∨ st.idCtr ≤ e.1

theorem Pres.refl (st : St) : Pres st st where
  doc_eq := rfl
  idCtr_le := Nat.le_refl _
  val_eq := fun _ => rfl
  cellKeys_eq := rfl
  subKeys_mono := fun _ _ h => h
  subEntry_pres := fun _ _ _ _ _ h => h
  subKeys_new := fun _ _ h => Or.inl h
  stack_sub := fun _ h => Or.inl h

theorem Pres.trans {st st2 st3 : St} (p : Pres st st2) (q : Pres st2 st3) :
    Pres st st3 where
  doc_eq := q.doc_eq.trans p.doc_eq
  idCtr_le := Nat.le_trans p.idCtr_le q.idCtr_le
  val_eq := fun c => (q.val_eq c).trans (p.val_eq c)
  cellKeys_eq := q.cellKeys_eq.trans p.cellKeys_eq
  subKeys_mono := fun c id h => q.subKeys_mono c id (p.subKeys_mono c id h)
  subEntry_pres := by
    intro c id comp hlt hst hl
    refine q.subEntry_pres c id comp (Nat.lt_of_lt_of_le hlt p.idCtr_le) ?_
      (p.subEntry_pres c id comp hlt hst hl)
    intro x hx
    rcases p.stack_sub (id, x) hx with h2 | h2
    · exact hst x h2
    · exact absurd h2 (Nat.not_le_of_lt hlt)
  subKeys_new := by
    intro c id h
    rcases q.subKeys_new c id h with h2 | h2 | ⟨x, hx⟩
    · exact p.subKeys_new c id h2
    · exact Or.inr (Or.inl (Nat.le_trans p.idCtr_le h2))
    · rcases p.stack_sub (id, x) hx with h3 | h3
      · exact Or.inr (Or.inr ⟨x, h3⟩)
      · exact Or.inr (Or.inl h3)
  stack_sub := by
    intro e h
    rcases q.stack_sub e h with h2 | h2
    · exact p.stack_sub e h2
    · exact Or.inr (Nat.le_trans p.idCtr_le h2)

theorem mem_of_head {α : Type} {l : List α} {a : α} (h : l.head? = some a) : a ∈ l := by
  cases l with
  | nil => simp at h
  | cons b t =>
    simp only [List.head?_cons, Option.some.injEq] at h
    rw [h] at *
    exact List.mem_cons_self a t

theorem getCell_updCellF_any (st : St) (c : Nat) (f : Cell → Cell) :
    getCell (updCellF st c f) c =
      match lookupA st.cells c with
      | some cell => f cell
      | none => { value := .vnull, subs := [] } := by
  unfold getCell updCellF
  rw [lookupA_map_upd]
  cases lookupA st.cells c <;> simp

theorem mem_keysOf_updateA_of_mem {α : Type} (l : List (Nat × α)) (k id : Nat) (a : α)
    (h : id ∈ keysOf l) : id ∈ keysOf (updateA l k a) := by
  rw [keysOf_updateA]
  by_cases hm : k ∈ keysOf l
  · rw [if_pos hm]; exact h
  · rw [if_neg hm]; exact List.mem_append.mpr (Or.inl h)

theorem readCell_eq_some (st : St) (c : Nat) (idc : Nat × Nat × List Val)
    (hh : st.stack.head? = some idc) :
    readCell st c = ((getCell st c).value,
      updCellF st c (fun cell => { cell with subs := updateA cell.subs idc.1 idc.2 })) := by
  unfold readCell
  rw [hh]

theorem readCell_eq_none (st : St) (c : Nat) (hh : st.stack.head? = none) :
    readCell st c = ((getCell st c).value, st) := by
  unfold readCell
  rw [hh]

theorem subsOf_eq_nil_of_absent (st : St) (c : Nat) (hc : lookupA st.cells c = none) :
    subsOf st c = [] := by
  unfold subsOf getCell
  rw [hc]
  rfl

theorem readCell_pres (st : St) (c : Nat) : Pres st (readCell st c).2 := by
  cases hh : st.stack.head? with
  | none =>
    rw [readCell_eq_none st c hh]
    exact Pres.refl st
  | some idc =>
    rw [readCell_eq_some st c idc hh]
    have hmem : idc ∈ st.stack := mem_of_head hh
    dsimp only
    have hsubs : ∀ c2, subsOf (updCellF st c
        (fun cell => { cell with subs := updateA cell.subs idc.1 idc.2 })) c2 =
        if c2 = c then
          (match lookupA st.cells c with
           | some cell => updateA cell.subs idc.1 idc.2
           | none => [])
        else subsOf st c2 := by
      intro c2
      by_cases hc2 : c2 = c
      · subst hc2
        rw [if_pos rfl]
        unfold subsOf
        rw [getCell_updCellF_any]
        cases lookupA st.cells c2 <;> simp
      · rw [if_neg hc2]
        unfold subsOf
        rw [getCell_updCellF_ne st c c2 _ hc2]
    have hsubs_some : ∀ cell, lookupA st.cells c = some cell →
        subsOf st c = cell.subs := by
      intro cell hc
      unfold subsOf getCell
      rw [hc]
      rfl
    constructor
    · simp [updCellF]
    · simp [updCellF]
    · intro c2
      by_cases hc2 : c2 = c
      · subst hc2
        unfold valOf
        rw [getCell_updCellF_any]
        unfold getCell
        cases lookupA st.cells c2 <;> simp
      · unfold valOf
        rw [getCell_updCellF_ne st c c2 _ hc2]
    · simp only [updCellF]
      exact keysOf_map_upd st.cells c
        (fun cell => { cell with subs := updateA cell.subs idc.1 idc.2 })
    · intro c2 id h
      rw [hsubs c2]
      by_cases hc2 : c2 = c
      · subst hc2
        rw [if_pos rfl]
        cases hcell : lookupA st.cells c2 with
        | none =>
          rw [subsOf_eq_nil_of_absent st c2 hcell] at h
          simp [keysOf] at h
        | some cell =>
          rw [hsubs_some cell hcell] at h
          exact mem_keysOf_updateA_of_mem _ _ _ _ h
      · rw [if_neg hc2]
        exact h
    · intro c2 id comp hlt hst hl
      rw [hsubs c2]
      by_cases hc2 : c2 = c
      · subst hc2
        rw [if_pos rfl]
        cases hcell : lookupA st.cells c2 with
        | none =>
          rw [subsOf_eq_nil_of_absent st c2 hcell] at hl
          simp [lookupA] at hl
        | some cell =>
          rw [hsubs_some cell hcell] at hl
          have hne : idc.1 ≠ id := by
            intro he
            refine hst idc.2 ?_
            have h2 : idc = (id, idc.2) := by
              rcases idc with ⟨i1, i2⟩
              simp only at he
              rw [he]
            rw [← h2]
            exact hmem
          rw [lookupA_updateA_ne _ _ _ _ hne]
          exact hl
      · rw [if_neg hc2]
        exact hl
    · intro c2 id h
      rw [hsubs c2] at h
      by_cases hc2 : c2 = c
      · subst hc2
        rw [if_pos rfl] at h
        cases hcell : lookupA st.cells c2 with
        | none =>
          rw [hcell] at h
          simp [keysOf] at h
        | some cell =>
          rw [hcell] at h
          simp only at h
          rw [keysOf_updateA] at h
          rw [hsubs_some cell hcell]
          by_cases hm : idc.1 ∈ keysOf cell.subs
          · rw [if_pos hm] at h
            exact Or.inl h
          · rw [if_neg hm] at h
            rcases List.mem_append.mp h with h2 | h2
            · exact Or.inl h2
            · have he : id = idc.1 := List.mem_singleton.mp h2
              subst he
              refine Or.inr (Or.inr ⟨idc.2, ?_⟩)
              have h3 : idc = (idc.1, idc.2) := rfl
              rw [← h3]
              exact hmem
      · rw [if_neg hc2] at h
        exact Or.inl h
    · intro e h
      simp only [updCellF] at h
      exact Or.inl h

theorem runReadM_pres (m : ReadM) (st : St) : Pres st (runReadM m st).2 := by
  induction m generalizing st with
  | pure v => exact Pres.refl st
  | read c k ih =>
    simp only [runReadM]
    exact (readCell_pres st c).trans (ih _ _)

/-- Invariant satisfied by every `render` call: the state evolves by
`Pres`; on success the stack is restored exactly and every stamped
identifier of the returned node was allocated during the call. -/
def ROut (st : St) (out : Except RErr (Option DNode) × St) : Prop :=
  Pres st out.2 ∧
  ∀ o, out.1 = Except.ok o → out.2.stack = st.stack ∧
    ∀ d, o = some d → ∀ u ∈ uidsN d, st.idCtr ≤ u ∧ u < out.2.idCtr

/-- Invariant satisfied by the child-rendering fold, relative to the
starting state and the already accumulated nodes. -/
def LOut (st : St) (ds : List DNode) (out : Except RErr (List DNode) × St) : Prop :=
  Pres st out.2 ∧
  ∀ ds2, out.1 = Except.ok ds2 → out.2.stack = st.stack ∧
    ∀ d, d ∈ ds2 → d ∈ ds ∨ ∀ u ∈ uidsN d, st.idCtr ≤ u ∧ u < out.2.idCtr

theorem pushCtx_pres (st : St) (cid : Nat) (args : List Val) :
    Pres st (pushCtx st cid args) := by
  constructor
  · rfl
  · exact Nat.le_succ _
  · intro c; rfl
  · rfl
  · intro c id h; exact h
  · intro c id comp _ _ h; exact h
  · intro c id h; exact Or.inl h
  · intro e h
    rcases List.mem_cons.mp h with he | hm
    · subst he
      exact Or.inr (Nat.le_refl _)
    · exact Or.inl hm

theorem stack_tail_pres (s : St) : Pres s { s with stack := s.stack.tail } := by
  constructor
  · rfl
  · exact Nat.le_refl _
  · intro c; rfl
  · rfl
  · intro c id h; exact h
  · intro c id comp _ _ h; exact h
  · intro c id h; exact Or.inl h
  · intro e h
    exact Or.inl (List.mem_of_mem_tail h)

theorem foldl_renderChildStep_error (prog : Prog) (fuel : Nat) (e : RErr) (s : St)
    (cs : List Val) :
    cs.foldl (renderChildStep prog fuel) (.error e, s) = (.error e, s) := by
  induction cs with
  | nil => rfl
  | cons c cs ih =>
    rw [List.foldl_cons]
    exact ih

theorem mem_uidsL {u : Nat} (ds : List DNode) (h : u ∈ uidsL ds) :
    ∃ d, d ∈ ds ∧ u ∈ uidsN d := by
  induction ds with
  | nil => simp [uidsL] at h
  | cons d ds ih =>
    rw [show uidsL (d :: ds) = uidsN d ++ uidsL ds from rfl] at h
    rcases List.mem_append.mp h with h2 | h2
    · exact ⟨d, List.mem_cons_self d ds, h2⟩
    · rcases ih h2 with ⟨d2, hd2, hu⟩
      exact ⟨d2, List.mem_cons_of_mem d hd2, hu⟩

theorem render_arr_eq (prog : Prog) (fuel : Nat) (items : List Val) (st : St) :
    render prog (fuel + 1) (.varr items) st =
      (match items.head? with
       | some (Val.vstr s) =>
         if (takeTag s.data).isEmpty then (.error .parseErr, st)
         else
           match (items.drop (if (match items[1]? with
               | some (Val.vobj kvs) => some kvs
               | _ => none).isSome then 2 else 1)).foldl
               (renderChildStep prog fuel) (.ok [], st) with
           | (.error e, st2) => (.error e, st2)
           | (.ok ds, st2) =>
             (.ok (some (.elem (takeTag s.data).asString none (scanF '#' s.data).head?
               ((scanF '.' s.data).foldl addClass [])
               (applyAttrs ((match items[1]? with
                 | some (Val.vobj kvs) => some kvs
                 | _ => none).getD [])).1
               (applyAttrs ((match items[1]? with
                 | some (Val.vobj kvs) => some kvs
                 | _ => none).getD [])).2 ds)), st2)
       | _ => (.error .typeErr, st)) := rfl

theorem render_succ_other (prog : Prog) (fuel : Nat) (v : Val) (st : St)
    (hf : falsy v = false)
    (hshape : match v with
      | .vcomp _ _ => False
      | .varr _ => False
      | _ => True) :
    render prog (fuel + 1) v st = (.ok (some (.text (toStr v))), st) := by
  cases v with
  | vcomp cid args => exact absurd hshape (by simp)
  | varr items => exact absurd hshape (by simp)
  | vnull => simp [falsy] at hf
  | vnum n => simp only [render, hf]; simp
  | vbool b => simp only [render, hf]; simp
  | vstr s => simp only [render, hf]; simp
  | vobj kvs => simp only [render, hf]; simp

theorem foldChild_inv (prog : Prog) (fuel : Nat)
    (hR : ∀ v st, ROut st (render prog fuel v st)) :
    ∀ (children : List Val) (st : St) (ds : List DNode),
      LOut st ds (children.foldl (renderChildStep prog fuel) (.ok ds, st)) := by
  intro children
  induction children with
  | nil =>
    intro st ds
    refine ⟨Pres.refl st, ?_⟩
    intro ds2 h
    have hds : ds = ds2 := by simpa using h
    subst hds
    exact ⟨rfl, fun d hd => Or.inl hd⟩
  | cons c cs ih =>
    intro st ds
    rw [List.foldl_cons]
    rcases hr : render prog fuel c st with ⟨r1, s3⟩
    have hRc := hR c st
    rw [hr] at hRc
    cases r1 with
    | error e =>
      have hstep : renderChildStep prog fuel (.ok ds, st) c = (.error e, s3) := by
        simp [renderChildStep, hr]
      rw [hstep, foldl_renderChildStep_error]
      refine ⟨hRc.1, ?_⟩
      intro ds2 h
      simp at h
    | ok o =>
      cases o with
      | none =>
        have hstep : renderChildStep prog fuel (.ok ds, st) c = (.ok ds, s3) := by
          simp [renderChildStep, hr]
        rw [hstep]
        have hi := ih s3 ds
        have hokfacts := hRc.2 none rfl
        refine ⟨hRc.1.trans hi.1, ?_⟩
        intro ds2 h
        have h2 := hi.2 ds2 h
        refine ⟨h2.1.trans hokfacts.1, ?_⟩
        intro d hd
        rcases h2.2 d hd with hin | hb
        · exact Or.inl hin
        · refine Or.inr ?_
          intro u hu
          have hbu := hb u hu
          exact ⟨Nat.le_trans hRc.1.idCtr_le hbu.1, hbu.2⟩
      | some d =>
        have hstep : renderChildStep prog fuel (.ok ds, st) c = (.ok (ds ++ [d]), s3) := by
          simp [renderChildStep, hr]
        rw [hstep]
        have hi := ih s3 (ds ++ [d])
        have hokfacts := hRc.2 (some d) rfl
        refine ⟨hRc.1.trans hi.1, ?_⟩
        intro ds2 h
        have h2 := hi.2 ds2 h
        refine ⟨h2.1.trans hokfacts.1, ?_⟩
        intro d2 hd2
        rcases h2.2 d2 hd2 with hin | hb
        · rcases List.mem_append.mp hin with hin2 | hin2
          · exact Or.inl hin2
          · have hd2d : d2 = d := List.mem_singleton.mp hin2
            subst hd2d
            refine Or.inr ?_
            intro u hu
            have hbu := hokfacts.2 d2 rfl u hu
            exact ⟨hbu.1, Nat.lt_of_lt_of_le hbu.2 hi.1.idCtr_le⟩
        · refine Or.inr ?_
          intro u hu
          have hbu := hb u hu
          exact ⟨Nat.le_trans hRc.1.idCtr_le hbu.1, hbu.2⟩

/-- Main invariant of `render`: every call preserves the document, the
cell values and the cell population, only grows the subscriber key sets
and the uid counter, restores the stack exactly on success, and stamps
only identifiers allocated during the call. -/
theorem render_inv (prog : Prog) : ∀ (fuel : Nat) (v : Val) (st : St),
    ROut st (render prog fuel v st) := by
  intro fuel
  induction fuel with
  | zero =>
    intro v st
    refine ⟨Pres.refl st, ?_⟩
    intro o h
    simp [render] at h
  | succ fuel ih =>
    intro v st
    by_cases hf : falsy v = true
    · rw [render_succ_falsy prog fuel v st hf]
      refine ⟨Pres.refl st, ?_⟩
      intro o h
      have ho : none = o := by simpa using h
      subst ho
      exact ⟨rfl, fun d hd => by cases hd⟩
    · have hf2 : falsy v = false := by simpa using hf
      cases v with
      | vnull => simp [falsy] at hf2
      | vcomp cid args =>
        rcases hr : render prog fuel (runReadM (prog cid args) (pushCtx st cid args)).1
            (runReadM (prog cid args) (pushCtx st cid args)).2 with ⟨r1, st3⟩
        have hIH := ih (runReadM (prog cid args) (pushCtx st cid args)).1
          (runReadM (prog cid args) (pushCtx st cid args)).2
        rw [hr] at hIH
        have hrun : Pres st (runReadM (prog cid args) (pushCtx st cid args)).2 :=
          (pushCtx_pres st cid args).trans (runReadM_pres _ _)
        have hrunstack : ((runReadM (prog cid args) (pushCtx st cid args)).2).stack =
            (st.idCtr, cid, args) :: st.stack := by
          rw [runReadM_stack]; rfl
        have hrunid : ((runReadM (prog cid args) (pushCtx st cid args)).2).idCtr =
            st.idCtr + 1 := by
          rw [runReadM_idCtr]; rfl
        have hPres3 : Pres st st3 := hrun.trans hIH.1
        rw [render_comp_eq, hr]
        cases r1 with
        | error e =>
          refine ⟨hPres3, ?_⟩
          intro o h
          simp at h
        | ok o =>
          cases o with
          | none =>
            refine ⟨hPres3, ?_⟩
            intro o h
            simp [stamp] at h
          | some d =>
            cases d with
            | text s =>
              refine ⟨hPres3, ?_⟩
              intro o h
              simp [stamp] at h
            | elem t u i2 cs2 as2 hs2 ch =>
              show ROut st (.ok (some (.elem t (some st.idCtr) i2 cs2 as2 hs2 ch)),
                { st3 with stack := st3.stack.tail })
              have hinner := hIH.2 (some (.elem t u i2 cs2 as2 hs2 ch)) rfl
              have hstack3 : st3.stack = (st.idCtr, cid, args) :: st.stack := by
                rw [hinner.1, hrunstack]
              have hid3 : st.idCtr + 1 ≤ st3.idCtr := by
                rw [← hrunid]
                exact hIH.1.idCtr_le
              refine ⟨hPres3.trans (stack_tail_pres st3), ?_⟩
              intro o h
              have ho : some (DNode.elem t (some st.idCtr) i2 cs2 as2 hs2 ch) = o := by
                simpa using h
              subst ho
              refine ⟨?_, ?_⟩
              · show st3.stack.tail = st.stack
                rw [hstack3]
                rfl
              · intro d hd
                have hd2 : d = DNode.elem t (some st.idCtr) i2 cs2 as2 hs2 ch :=
                  (Option.some.inj hd).symm
                subst hd2
                intro u2 hu2
                have huids : uidsN (DNode.elem t (some st.idCtr) i2 cs2 as2 hs2 ch) =
                    st.idCtr :: uidsL ch := rfl
                rw [huids] at hu2
                rcases List.mem_cons.mp hu2 with he | hm
                · subst he
                  exact ⟨Nat.le_refl _, Nat.lt_of_lt_of_le (Nat.lt_succ_self _) hid3⟩
                · have hb := hinner.2 (DNode.elem t u i2 cs2 as2 hs2 ch) rfl u2
                    (by
                      show u2 ∈ uidsN (DNode.elem t u i2 cs2 as2 hs2 ch)
                      show u2 ∈ u.toList ++ uidsL ch
                      exact List.mem_append.mpr (Or.inr hm))
                  have hb1 := hb.1
                  rw [hrunid] at hb1
                  exact ⟨by omega, hb.2⟩
      | varr items =>
        rw [render_arr_eq]
        cases hh : items.head? with
        | none =>
          refine ⟨Pres.refl st, ?_⟩
          intro o h
          simp at h
        | some v1 =>
          cases v1 with
          | vstr s =>
            dsimp only
            by_cases hemp : (takeTag s.data).isEmpty = true
            · rw [if_pos hemp]
              refine ⟨Pres.refl st, ?_⟩
              intro o h
              simp at h
            · rw [if_neg hemp]
              rcases hfold : (items.drop (if (match items[1]? with
                  | some (Val.vobj kvs) => some kvs
                  | _ => none).isSome then 2 else 1)).foldl
                  (renderChildStep prog fuel) (.ok [], st) with ⟨rf, st2⟩
              have hL := foldChild_inv prog fuel ih
                (items.drop (if (match items[1]? with
                  | some (Val.vobj kvs) => some kvs
                  | _ => none).isSome then 2 else 1)) st ([] : List DNode)
              rw [hfold] at hL
              rw [hfold]
              cases rf with
              | error e =>
                refine ⟨hL.1, ?_⟩
                intro o h
                simp at h
              | ok ds =>
                have hok := hL.2 ds rfl
                refine ⟨hL.1, ?_⟩
                intro o h
                have ho : some (DNode.elem (takeTag s.data).asString none
                    (scanF '#' s.data).head? ((scanF '.' s.data).foldl addClass [])
                    (applyAttrs ((match items[1]? with
                      | some (Val.vobj kvs) => some kvs
                      | _ => none).getD [])).1
                    (applyAttrs ((match items[1]? with
                      | some (Val.vobj kvs) => some kvs
                      | _ => none).getD [])).2 ds) = o := by
                  simpa using h
                subst ho
                refine ⟨hok.1, ?_⟩
                intro d hd
                have hd2 := (Option.some.inj hd).symm
                subst hd2
                intro u2 hu2
                have hu3 : u2 ∈ uidsL ds := hu2
                rcases mem_uidsL ds hu3 with ⟨d2, hd2, hu4⟩
                rcases hok.2 d2 hd2 with hin | hb
                · cases hin
                · exact hb u2 hu4
          | vnull =>
            refine ⟨Pres.refl st, ?_⟩
            intro o h
            simp at h
          | vnum n =>
            refine ⟨Pres.refl st, ?_⟩
            intro o h
            simp at h
          | vbool b =>
            refine ⟨Pres.refl st, ?_⟩
            intro o h
            simp at h
          | vcomp cid args =>
            refine ⟨Pres.refl st, ?_⟩
            intro o h
            simp at h
          | varr its =>
            refine ⟨Pres.refl st, ?_⟩
            intro o h
            simp at h
          | vobj kvs =>
            refine ⟨Pres.refl st, ?_⟩
            intro o h
            simp at h
      | vnum n =>
        rw [render_succ_other prog fuel _ st hf2 (by simp)]
        refine ⟨Pres.refl st, ?_⟩
        intro o h
        have ho : some (DNode.text (toStr (.vnum n))) = o := by simpa using h
        subst ho
        refine ⟨rfl, ?_⟩
        intro d hd
        have hd2 := (Option.some.inj hd).symm
        subst hd2
        intro u2 hu2
        cases hu2
      | vbool b =>
        rw [render_succ_other prog fuel _ st hf2 (by simp)]
        refine ⟨Pres.refl st, ?_⟩
        intro o h
        have ho : some (DNode.text (toStr (.vbool b))) = o := by simpa using h
        subst ho
        refine ⟨rfl, ?_⟩
        intro d hd
        have hd2 := (Option.some.inj hd).symm
        subst hd2
        intro u2 hu2
        cases hu2
      | vstr s =>
        rw [render_succ_other prog fuel _ st hf2 (by simp)]
        refine ⟨Pres.refl st, ?_⟩
        intro o h
        have ho : some (DNode.text (toStr (.vstr s))) = o := by simpa using h
        subst ho
        refine ⟨rfl, ?_⟩
        intro d hd
        have hd2 := (Option.some.inj hd).symm
        subst hd2
        intro u2 hu2
        cases hu2
      | vobj kvs =>
        rw [render_succ_other prog fuel _ st hf2 (by simp)]
        refine ⟨Pres.refl st, ?_⟩
        intro o h
        have ho : some (DNode.text (toStr (.vobj kvs))) = o := by simpa using h
        subst ho
        refine ⟨rfl, ?_⟩
        intro d hd
        have hd2 := (Option.some.inj hd).symm
        subst hd2
        intro u2 hu2
        cases hu2

/-- A program whose single component reads the flag cell `1` and reads
the data cell `0` only when the flag is truthy. -/
def progCond : Prog := fun _ _ =>
  .read 1 (fun v =>
    if falsy v then .pure (.varr [.vstr "p"])
    else .read 0 (fun w => .pure (.varr [.vstr "p", w])))

/-- Two cells, data `5` in cell `0` and flag `true` in cell `1`. -/
def stCond : St :=
  { idCtr := 0, stack := [],
    cells := [(0, { value := .vnum 5, subs := [] }),
              (1, { value := .vbool true, subs := [] })],
    doc := [] }

/-- The state after mounting the conditional component. -/
def stCondMounted : St := (mount progCond 5 (.vcomp 0 []) stCond).2

/-- The state after flipping the flag cell to `false`. -/
def stCondFinal : St := (setCell progCond 5 1 (.vbool false) stCondMounted).2

/-- Claim C3 (counterexample): after mounting a component that reads
cell `0` only while the flag cell `1` is truthy and then writing `false`
to the flag, the write completes, yet cell `0` still carries the
subscriber entry for context `0` even though that context's most recent
invocation (whose read set over the current cell values is exactly
`[1]`) did not read cell `0` — the invariant "an entry exists only for
contexts that read the cell during their most recent invocation" is
violated outside any write notification. -/
theorem staleDependencyEntryPersists :
    (mount progCond 5 (.vcomp 0 []) stCond).1 = .ok () ∧
    (setCell progCond 5 1 (.vbool false) stCondMounted).1 = .ok () ∧
    lookupA (subsOf stCondFinal 0) 0 = some (0, []) ∧
    readsOf (progCond 0 []) (fun c => valOf stCondFinal c) = [1] :=
  ⟨rfl, rfl, rfl, rfl⟩

/-- Claim C3 (amended): subscriber entries are created only by reads
under an active context and are never removed outside a write
notification — rendering (and any body run) only ever grows the key set
of every subscriber map, and a read under an active context registers
that context's entry; hence an entry may persist for a context whose
most recent invocation did not read the cell, until a write finds its
node unlocatable. -/
theorem subscriptionLifecycle :
    (∀ (prog : Prog) (fuel : Nat) (v : Val) (st : St) (c id : Nat),
      id ∈ keysOf (subsOf st c) →
      id ∈ keysOf (subsOf (render prog fuel v st).2 c)) ∧
    (∀ (st : St) (c : Nat) (idc : Nat × Nat × List Val),
      st.stack.head? = some idc → (lookupA st.cells c).isSome = true →
      lookupA (subsOf (readCell st c).2 c) idc.1 = some idc.2) := by
  constructor
  · intro prog fuel v st c id h
    exact (render_inv prog fuel v st).1.subKeys_mono c id h
  · intro st c idc hh hc
    rw [subsOf_readCell st c idc hh hc]
    exact lookupA_updateA_self _ _ _

/-- Witness for the amended C3 theorem at concrete inputs. -/
theorem subscriptionLifecycleWitness :
    0 ∈ keysOf (subsOf (render progReadP 2 (.vnum 1) stOneSub).2 0) ∧
    lookupA (subsOf (readCell { stInit with stack := [(3, 5, [])] } 0).2 0) 3 =
      some (5, []) :=
  ⟨subscriptionLifecycle.1 progReadP 2 (.vnum 1) stOneSub 0 0 (by decide),
   subscriptionLifecycle.2 { stInit with stack := [(3, 5, [])] } 0 (3, 5, []) rfl rfl⟩

/-- Claim C5 (confirmed): rendering a component reference carrying bound
arguments invokes the component function on exactly those bound
arguments (the body is `prog cid args`), renders the returned
description, stamps the resulting UI node with the freshly allocated
identifier, and restores the context stack. -/
theorem componentInvocation (prog : Prog) (fuel : Nat) (cid : Nat) (args : List Val)
    (st : St) (d : Val) (st1 : St)
    (hrun : runReadM (prog cid args) (pushCtx st cid args) = (d, st1))
    (t : String) (u : Option Nat) (i : Option String) (cs : List String)
    (as2 : List (String × String)) (hs2 : List (String × Nat × List Val))
    (ch : List DNode) (st2 : St)
    (hrender : render prog fuel d st1 = (.ok (some (.elem t u i cs as2 hs2 ch)), st2)) :
    render prog (fuel + 1) (.vcomp cid args) st =
      (.ok (some (.elem t (some st.idCtr) i cs as2 hs2 ch)),
        { st2 with stack := st2.stack.tail }) ∧
    st2.stack.tail = st.stack := by
  have hstack2 : st2.stack = (st.idCtr, cid, args) :: st.stack := by
    have hok := ((render_inv prog fuel d st1).2)
    rw [hrender] at hok
    have h1 := (hok (some (.elem t u i cs as2 hs2 ch)) rfl).1
    have h2 : st1.stack = (st.idCtr, cid, args) :: st.stack := by
      have h3 : st1 = (runReadM (prog cid args) (pushCtx st cid args)).2 := by
        rw [hrun]
      rw [h3, runReadM_stack]
      rfl
    rw [← h2]
    exact h1
  constructor
  · rw [render_comp_eq, hrun]
    dsimp only
    rw [hrender]
    rfl
  · rw [hstack2]
    rfl

/-- Witness for the C5 theorem at a concrete input. -/
theorem componentInvocationWitness :
    render progReadP 2 (.vcomp 0 []) stInit =
      (.ok (some (.elem "p" (some 0) none [] [] [] [])),
        { ({ idCtr := 1, stack := [(0, 0, [])],
             cells := [(0, { value := .vnum 0, subs := [(0, 0, [])] })],
             doc := [] } : St) with stack := [(0, 0, [])].tail }) ∧
    ([(0, 0, [])] : List (Nat × Nat × List Val)).tail = stInit.stack :=
  componentInvocation progReadP 1 0 [] stInit (.varr [.vstr "p"])
    { idCtr := 1, stack := [(0, 0, [])],
      cells := [(0, { value := .vnum 0, subs := [(0, 0, [])] })],
      doc := [] } rfl
    "p" none none [] [] [] []
    { idCtr := 1, stack := [(0, 0, [])],
      cells := [(0, { value := .vnum 0, subs := [(0, 0, [])] })],
      doc := [] } rfl

/-! ### Locating and replacing nodes (claim C6) -/

/-- The stamped identifier of the root of a node. -/
def rootUid : DNode → Option Nat
  | .text _ => none
  | .elem _ u _ _ _ _ _ => u

mutual
theorem findN_none_of_not_mem (id : Nat) (d : DNode) (h : id ∉ uidsN d) :
    findN id d = none := by
  cases d with
  | text s => rfl
  | elem t u i cs as2 hs2 ch =>
    have hu : u ≠ some id := by
      intro he
      exact h (by
        show id ∈ u.toList ++ uidsL ch
        rw [he]
        exact List.mem_append.mpr (Or.inl (List.mem_singleton.mpr rfl)))
    show (if u = some id then _ else findL id ch) = none
    rw [if_neg hu]
    exact findL_none_of_not_mem id ch (fun hm => h (by
      show id ∈ u.toList ++ uidsL ch
      exact List.mem_append.mpr (Or.inr hm)))
theorem findL_none_of_not_mem (id : Nat) (ds : List DNode) (h : id ∉ uidsL ds) :
    findL id ds = none := by
  cases ds with
  | nil => rfl
  | cons d ds =>
    have h1 : findN id d = none := findN_none_of_not_mem id d (fun hm => h (by
      show id ∈ uidsN d ++ uidsL ds
      exact List.mem_append.mpr (Or.inl hm)))
    show (match findN id d with
          | some r => some r
          | none => findL id ds) = none
    rw [h1]
    exact findL_none_of_not_mem id ds (fun hm => h (by
      show id ∈ uidsN d ++ uidsL ds
      exact List.mem_append.mpr (Or.inr hm)))
end

mutual
theorem replN_flag (B : Nat) (dn d : DNode) :
    (replN B dn d).2 = (findN B d).isSome := by
  cases d with
  | text s => rfl
  | elem t u i cs as2 hs2 ch =>
    by_cases hu : u = some B
    · show (if u = some B then (dn, true) else _).2 = _
      rw [if_pos hu]
      show true = (if u = some B then some (DNode.elem t u i cs as2 hs2 ch)
        else findL B ch).isSome
      rw [if_pos hu]
      rfl
    · show (if u = some B then (dn, true)
        else ((DNode.elem t u i cs as2 hs2 (replL B dn ch).1), (replL B dn ch).2)).2 =
        (if u = some B then some (DNode.elem t u i cs as2 hs2 ch)
         else findL B ch).isSome
      rw [if_neg hu, if_neg hu]
      exact replL_flag B dn ch
theorem replL_flag (B : Nat) (dn : DNode) (ds : List DNode) :
    (replL B dn ds).2 = (findL B ds).isSome := by
  cases ds with
  | nil => rfl
  | cons d ds =>
    cases hfd : findN B d with
    | some r =>
      have hflag : (replN B dn d).2 = true := by
        rw [replN_flag, hfd]
        rfl
      simp [replL, findL, hflag, hfd]
    | none =>
      have hflag : (replN B dn d).2 = false := by
        rw [replN_flag, hfd]
        rfl
      simp only [replL, findL, hflag, hfd]
      simp only [Bool.false_eq_true, if_false]
      exact replL_flag B dn ds
end

mutual
theorem findN_repl_self (B : Nat) (dn d : DNode) (hroot : rootUid dn = some B)
    (h : (findN B d).isSome = true) :
    findN B (replN B dn d).1 = some dn := by
  cases d with
  | text s => simp [findN] at h
  | elem t u i cs as2 hs2 ch =>
    by_cases hu : u = some B
    · simp only [replN, if_pos hu]
      cases dn with
      | text s2 => simp [rootUid] at hroot
      | elem t2 u2 i2 cs4 as4 hs4 ch2 =>
        have hu2 : u2 = some B := by simpa [rootUid] using hroot
        simp [findN, hu2]
    · have h2 : (findL B ch).isSome = true := by
        simp only [findN, if_neg hu] at h
        exact h
      simp only [replN, if_neg hu]
      simp only [findN, if_neg hu]
      exact findL_repl_self B dn ch hroot h2
theorem findL_repl_self (B : Nat) (dn : DNode) (ds : List DNode)
    (hroot : rootUid dn = some B) (h : (findL B ds).isSome = true) :
    findL B (replL B dn ds).1 = some dn := by
  cases ds with
  | nil => simp [findL] at h
  | cons d ds =>
    cases hfd : findN B d with
    | some r =>
      have hflag : (replN B dn d).2 = true := by
        rw [replN_flag, hfd]
        rfl
      have hn := findN_repl_self B dn d hroot (by rw [hfd]; rfl)
      simp only [replL, hflag, if_true]
      simp [findL, hn]
    | none =>
      have hflag : (replN B dn d).2 = false := by
        rw [replN_flag, hfd]
        rfl
      have h2 : (findL B ds).isSome = true := by
        simp only [findL, hfd] at h
        exact h
      simp only [replL, hflag]
      simp only [Bool.false_eq_true, if_false]
      simp only [findL, hfd]
      exact findL_repl_self B dn ds hroot h2
end

mutual
theorem findN_repl_absent (A B : Nat) (dn d : DNode)
    (hA : findN A d = none) (hdn : A ∉ uidsN dn) :
    findN A (replN B dn d).1 = none := by
  cases d with
  | text s => rfl
  | elem t u i cs as2 hs2 ch =>
    by_cases hu : u = some B
    · simp only [replN, if_pos hu]
      exact findN_none_of_not_mem A dn hdn
    · have hu2 : u ≠ some A := by
        intro he
        simp [findN, he] at hA
      have hch : findL A ch = none := by
        simp only [findN, if_neg hu2] at hA
        exact hA
      simp only [replN, if_neg hu]
      simp only [findN, if_neg hu2]
      exact findL_repl_absent A B dn ch hch hdn
theorem findL_repl_absent (A B : Nat) (dn : DNode) (ds : List DNode)
    (hA : findL A ds = none) (hdn : A ∉ uidsN dn) :
    findL A (replL B dn ds).1 = none := by
  cases ds with
  | nil => rfl
  | cons d ds =>
    have hAd : findN A d = none := by
      cases hfd : findN A d with
      | none => rfl
      | some r =>
        simp only [findL, hfd] at hA
        exact hA
    have hAds : findL A ds = none := by
      simp only [findL, hAd] at hA
      exact hA
    cases hflag : (replN B dn d).2 with
    | true =>
      simp only [replL, hflag, if_true]
      simp only [findL, findN_repl_absent A B dn d hAd hdn]
      exact hAds
    | false =>
      simp only [replL, hflag]
      simp only [Bool.false_eq_true, if_false]
      simp only [findL, hAd]
      exact findL_repl_absent A B dn ds hAds hdn
end

/-- The value-storing step of `set`. -/
def updVal (st : St) (c : Nat) (x : Val) : St :=
  updCellF st c (fun cell => { cell with value := x })

theorem subsOf_updVal (st : St) (c : Nat) (x : Val) (c2 : Nat) :
    subsOf (updVal st c x) c2 = subsOf st c2 := by
  by_cases hc2 : c2 = c
  · subst hc2
    unfold subsOf updVal
    rw [getCell_updCellF_any]
    unfold getCell
    cases lookupA st.cells c2 <;> rfl
  · unfold subsOf updVal
    rw [getCell_updCellF_ne st c c2 _ hc2]

theorem subsOf_removeSubSt_self (st : St) (c : Nat) (id : Nat) :
    subsOf (removeSubSt st c id) c = removeA (subsOf st c) id := by
  unfold removeSubSt subsOf
  rw [getCell_updCellF_any]
  unfold getCell
  cases lookupA st.cells c <;> rfl

theorem keysOf_removeA_not_mem {α : Type} (l : List (Nat × α)) (k : Nat) :
    k ∉ keysOf (removeA l k) := by
  intro h
  rcases List.mem_map.mp h with ⟨p, hp, hfst⟩
  have hm := List.mem_filter.mp hp
  rw [hfst] at hm
  simp at hm

theorem mem_keysOf_removeA {α : Type} (l : List (Nat × α)) (k id : Nat)
    (hne : id ≠ k) (h : id ∈ keysOf l) : id ∈ keysOf (removeA l k) := by
  rcases List.mem_map.mp h with ⟨p, hp, hfst⟩
  refine List.mem_map.mpr ⟨p, List.mem_filter.mpr ⟨hp, ?_⟩, hfst⟩
  rw [hfst]
  simpa using hne

theorem processEntries_nil (prog : Prog) (fuel c : Nat) (st : St) :
    processEntries prog fuel c [] st = (.ok (), st) := rfl

theorem processEntries_cons_none (prog : Prog) (fuel c : Nat)
    (e : Nat × Nat × List Val) (rest : List (Nat × Nat × List Val)) (st : St)
    (hfind : findByUid st.doc e.1 = none) :
    processEntries prog fuel c (e :: rest) st =
      processEntries prog fuel c rest (removeSubSt st c e.1) := by
  simp [processEntries, hfind]

theorem processEntries_cons_some (prog : Prog) (fuel c : Nat)
    (e : Nat × Nat × List Val) (rest : List (Nat × Nat × List Val)) (st : St)
    (dB : DNode) (hfind : findByUid st.doc e.1 = some dB)
    (t : String) (u : Option Nat) (i : Option String) (cs : List String)
    (as2 : List (String × String)) (hs2 : List (String × Nat × List Val))
    (ch : List DNode) (st2 : St)
    (hr : render prog fuel (runReadM (prog e.2.1 e.2.2) st).1
        (runReadM (prog e.2.1 e.2.2) st).2
      = (.ok (some (.elem t u i cs as2 hs2 ch)), st2)) :
    processEntries prog fuel c (e :: rest) st =
      processEntries prog fuel c rest
        { st2 with doc := replaceByUid st2.doc e.1 (.elem t (some e.1) i cs as2 hs2 ch) } := by
  simp only [processEntries, hfind]
  rw [hr]
  rfl

/-- Claim C6 (confirmed): writing to a cell whose snapshot of subscriber
entries consists of a stale entry `A` (node not locatable, identifier
older than every identifier the re-render can mint) and a live entry
`B`, in either iteration order, succeeds, removes `A` (and only stale
entries) from the mapping, keeps `B` subscribed, and leaves in the
document a replacement node stamped with `B` — the iteration runs over
the `Object.entries` snapshot, so deletions during traversal are safe. -/
theorem writeWithStaleAndLive (prog : Prog) (fuel : Nat) (c : Nat) (x : Val)
    (st : St) (A B : Nat) (ca cb : Nat × List Val)
    (hstack : st.stack = []) (hAB : A ≠ B) (hAlt : A < st.idCtr)
    (horder : subsOf st c = [(A, ca), (B, cb)] ∨ subsOf st c = [(B, cb), (A, ca)])
    (hA : findByUid st.doc A = none)
    (dB : DNode) (hB : findByUid st.doc B = some dB)
    (t : String) (u : Option Nat) (i : Option String) (cs : List String)
    (as2 : List (String × String)) (hs2 : List (String × Nat × List Val))
    (ch : List DNode) (st2 : St)
    (hrB : render prog fuel (runReadM (prog cb.1 cb.2) (updVal st c x)).1
        (runReadM (prog cb.1 cb.2) (updVal st c x)).2
      = (.ok (some (.elem t u i cs as2 hs2 ch)), st2))
    (t2 : String) (u2 : Option Nat) (i2 : Option String) (cs2 : List String)
    (as3 : List (String × String)) (hs3 : List (String × Nat × List Val))
    (ch2 : List DNode) (st4 : St)
    (hrB2 : render prog fuel
        (runReadM (prog cb.1 cb.2) (removeSubSt (updVal st c x) c A)).1
        (runReadM (prog cb.1 cb.2) (removeSubSt (updVal st c x) c A)).2
      = (.ok (some (.elem t2 u2 i2 cs2 as3 hs3 ch2)), st4)) :
    (setCell prog fuel c x st).1 = .ok () ∧
    A ∉ keysOf (subsOf (setCell prog fuel c x st).2 c) ∧
    B ∈ keysOf (subsOf (setCell prog fuel c x st).2 c) ∧
    ∃ dn, findByUid ((setCell prog fuel c x st).2).doc B = some dn ∧
      rootUid dn = some B := by
  have hsetCell : setCell prog fuel c x st =
      processEntries prog fuel c (subsOf (updVal st c x) c) (updVal st c x) := rfl
  have hsubs1 : subsOf (updVal st c x) c = subsOf st c := subsOf_updVal st c x c
  have hdoc1 : (updVal st c x).doc = st.doc := rfl
  have hstk1 : (updVal st c x).stack = st.stack := rfl
  have hid1 : (updVal st c x).idCtr = st.idCtr := rfl
  rcases horder with hord | hord
  · -- stale entry first
    have hstep1 : processEntries prog fuel c [(A, ca), (B, cb)] (updVal st c x) =
        processEntries prog fuel c [(B, cb)] (removeSubSt (updVal st c x) c A) := by
      refine processEntries_cons_none prog fuel c (A, ca) [(B, cb)] (updVal st c x) ?_
      show findByUid (updVal st c x).doc A = none
      rw [hdoc1]
      exact hA
    have hstep2 : processEntries prog fuel c [(B, cb)]
        (removeSubSt (updVal st c x) c A) =
        processEntries prog fuel c []
          { st4 with doc :=
              replaceByUid st4.doc B (.elem t2 (some B) i2 cs2 as3 hs3 ch2) } := by
      refine processEntries_cons_some prog fuel c (B, cb) []
        (removeSubSt (updVal st c x) c A) dB ?_ t2 u2 i2 cs2 as3 hs3 ch2 st4 hrB2
      show findByUid (removeSubSt (updVal st c x) c A).doc B = some dB
      exact hB
    have hpresA : Pres (removeSubSt (updVal st c x) c A) st4 := by
      have h1 := runReadM_pres (prog cb.1 cb.2) (removeSubSt (updVal st c x) c A)
      have h2 := (render_inv prog fuel
        (runReadM (prog cb.1 cb.2) (removeSubSt (updVal st c x) c A)).1
        (runReadM (prog cb.1 cb.2) (removeSubSt (updVal st c x) c A)).2).1
      rw [hrB2] at h2
      exact h1.trans h2
    have hsubsA : subsOf (removeSubSt (updVal st c x) c A) c =
        removeA [(A, ca), (B, cb)] A := by
      rw [subsOf_removeSubSt_self, hsubs1, hord]
    rw [hsetCell, hsubs1, hord, hstep1, hstep2, processEntries_nil]
    refine ⟨rfl, ?_, ?_, ?_⟩
    · -- A is gone
      intro hmem
      have hmem2 : A ∈ keysOf (subsOf st4 c) := hmem
      rcases hpresA.subKeys_new c A hmem2 with h2 | h2 | ⟨y, hy⟩
      · rw [hsubsA] at h2
        exact keysOf_removeA_not_mem _ _ h2
      · have : (removeSubSt (updVal st c x) c A).idCtr = st.idCtr := rfl
        rw [this] at h2
        omega
      · have he : (removeSubSt (updVal st c x) c A).stack = st.stack := rfl
        rw [he, hstack] at hy
        cases hy
    · -- B stays
      have hmemA : B ∈ keysOf (subsOf (removeSubSt (updVal st c x) c A) c) := by
        rw [hsubsA]
        refine mem_keysOf_removeA _ _ _ (Ne.symm hAB) ?_
        simp [keysOf]
      exact hpresA.subKeys_mono c B hmemA
    · -- the replacement node for B is in the document
      have hdoc4 : st4.doc = st.doc := by
        rw [hpresA.doc_eq]
        rfl
      refine ⟨.elem t2 (some B) i2 cs2 as3 hs3 ch2, ?_, rfl⟩
      show findByUid (replaceByUid st4.doc B (.elem t2 (some B) i2 cs2 as3 hs3 ch2)) B =
        some (.elem t2 (some B) i2 cs2 as3 hs3 ch2)
      rw [hdoc4]
      exact findL_repl_self B _ st.doc rfl (by
        show (findByUid st.doc B).isSome = true
        rw [hB]
        rfl)
  · -- live entry first
    have hpresB : Pres (updVal st c x) st2 := by
      have h1 := runReadM_pres (prog cb.1 cb.2) (updVal st c x)
      have h2 := (render_inv prog fuel
        (runReadM (prog cb.1 cb.2) (updVal st c x)).1
        (runReadM (prog cb.1 cb.2) (updVal st c x)).2).1
      rw [hrB] at h2
      exact h1.trans h2
    have hbound : ∀ u3 ∈ uidsL ch, st.idCtr ≤ u3 := by
      intro u3 hu3
      have hok := (render_inv prog fuel
        (runReadM (prog cb.1 cb.2) (updVal st c x)).1
        (runReadM (prog cb.1 cb.2) (updVal st c x)).2).2
      rw [hrB] at hok
      have hb := (hok (some (.elem t u i cs as2 hs2 ch)) rfl).2
        (.elem t u i cs as2 hs2 ch) rfl u3 (by
          show u3 ∈ u.toList ++ uidsL ch
          exact List.mem_append.mpr (Or.inr hu3))
      have hidr : ((runReadM (prog cb.1 cb.2) (updVal st c x)).2).idCtr = st.idCtr := by
        rw [runReadM_idCtr]
        rfl
      rw [hidr] at hb
      exact hb.1
    have hdn : A ∉ uidsN (DNode.elem t (some B) i cs as2 hs2 ch) := by
      intro hmem
      have hmem2 : A ∈ B :: uidsL ch := hmem
      rcases List.mem_cons.mp hmem2 with he | hm
      · exact hAB he
      · have := hbound A hm
        omega
    have hstep1 : processEntries prog fuel c [(B, cb), (A, ca)] (updVal st c x) =
        processEntries prog fuel c [(A, ca)]
          { st2 with doc := replaceByUid st2.doc B (.elem t (some B) i cs as2 hs2 ch) } := by
      refine processEntries_cons_some prog fuel c (B, cb) [(A, ca)] (updVal st c x)
        dB ?_ t u i cs as2 hs2 ch st2 hrB
      show findByUid (updVal st c x).doc B = some dB
      rw [hdoc1]
      exact hB
    have hdoc2 : st2.doc = st.doc := by
      rw [hpresB.doc_eq]
      rfl
    have hfindA2 : findByUid (replaceByUid st2.doc B
        (.elem t (some B) i cs as2 hs2 ch)) A = none := by
      rw [hdoc2]
      exact findL_repl_absent A B _ st.doc hA hdn
    have hstep2 : processEntries prog fuel c [(A, ca)]
        { st2 with doc := replaceByUid st2.doc B (.elem t (some B) i cs as2 hs2 ch) } =
        processEntries prog fuel c []
          (removeSubSt { st2 with doc := replaceByUid st2.doc B (.elem t (some B) i cs as2 hs2 ch) } c A) := by
      refine processEntries_cons_none prog fuel c (A, ca) [] _ ?_
      exact hfindA2
    rw [hsetCell, hsubs1, hord, hstep1, hstep2, processEntries_nil]
    have hsubsC : subsOf (removeSubSt { st2 with doc := replaceByUid st2.doc B (.elem t (some B) i cs as2 hs2 ch) } c A) c =
        removeA (subsOf st2 c) A := by
      rw [subsOf_removeSubSt_self]
      rfl
    refine ⟨rfl, ?_, ?_, ?_⟩
    · intro hmem
      have hmem2 : A ∈ keysOf (removeA (subsOf st2 c) A) := by
        rw [← hsubsC]
        exact hmem
      exact keysOf_removeA_not_mem _ _ hmem2
    · have hmemB : B ∈ keysOf (subsOf (updVal st c x) c) := by
        rw [hsubs1, hord]
        simp [keysOf]
      have hmemB2 : B ∈ keysOf (subsOf st2 c) := hpresB.subKeys_mono c B hmemB
      show B ∈ keysOf (subsOf (removeSubSt { st2 with doc := replaceByUid st2.doc B (.elem t (some B) i cs as2 hs2 ch) } c A) c)
      rw [hsubsC]
      exact mem_keysOf_removeA _ _ _ (Ne.symm hAB) hmemB2
    · refine ⟨.elem t (some B) i cs as2 hs2 ch, ?_, rfl⟩
      show findByUid (replaceByUid st2.doc B (.elem t (some B) i cs as2 hs2 ch)) B =
        some (.elem t (some B) i cs as2 hs2 ch)
      rw [hdoc2]
      exact findL_repl_self B _ st.doc rfl (by
        show (findByUid st.doc B).isSome = true
        rw [hB]
        rfl)

/-- A cell with a stale subscriber (context `1`, no node in the
document) and a live one (context `2`, node present). -/
def stTwoSubs : St :=
  { idCtr := 3, stack := [],
    cells := [(0, { value := .vnum 0, subs := [(1, 0, []), (2, 0, [])] })],
    doc := [.elem "p" (some 2) none [] [] [] []] }

/-- Witness for the C6 theorem at a concrete input. -/
theorem writeWithStaleAndLiveWitness :
    (setCell progReadP 1 0 (.vnum 9) stTwoSubs).1 = .ok () ∧
    1 ∉ keysOf (subsOf (setCell progReadP 1 0 (.vnum 9) stTwoSubs).2 0) ∧
    2 ∈ keysOf (subsOf (setCell progReadP 1 0 (.vnum 9) stTwoSubs).2 0) ∧
    ∃ dn, findByUid ((setCell progReadP 1 0 (.vnum 9) stTwoSubs).2).doc 2 = some dn ∧
      rootUid dn = some 2 :=
  writeWithStaleAndLive progReadP 1 0 (.vnum 9) stTwoSubs 1 2 (0, []) (0, [])
    rfl (by decide) (by decide) (Or.inl rfl) rfl
    (.elem "p" (some 2) none [] [] [] []) rfl
    "p" none none [] [] [] []
    { idCtr := 3, stack := [],
      cells := [(0, { value := .vnum 9, subs := [(1, 0, []), (2, 0, [])] })],
      doc := [.elem "p" (some 2) none [] [] [] []] } rfl
    "p" none none [] [] [] []
    { idCtr := 3, stack := [],
      cells := [(0, { value := .vnum 9, subs := [(2, 0, [])] })],
      doc := [.elem "p" (some 2) none [] [] [] []] } rfl

end MiniVdom
